import Mathlib

/-!
Verification of the HackRx RAG question-answering service.

This file embeds the Python services of the repository in Lean:
numbers that the code manipulates as Python floats are modelled as
rationals, Python dictionaries are modelled as association lists with
first-match lookup and insert-or-replace update, and fallible code is
modelled with Except / Option.  Remote calls (the embedding API, the
chat model, FAISS distance computation, the document download) are
inputs of the embedded functions: each function receives the values the
remote call would have produced and the embedding covers everything the
service itself computes from them.  Opaque payload maps that the claims
never inspect (per-chunk auxiliary metadata dictionaries) are elided
from the records.
-/

/- The core rational arithmetic operations carry `@[irreducible]` (they
have native implementations); the kernel ignores reducibility, so making
them semireducible only lets `decide` evaluate concrete rational
arithmetic during elaboration and does not affect soundness. -/
set_option allowUnsafeReducibility true in
attribute [semireducible] Rat.add Rat.mul Rat.sub Rat.div Rat.inv Rat.neg

namespace HackRx

/-- Python `min(x, y)` on two numbers: returns `y` exactly when `y < x`. -/
def pyMin (x y : ℚ) : ℚ :=
  if y < x then y else x

/-- First-match lookup in an association list, the model of `dict[k]` /
`dict.get(k)` access on a Python dictionary. -/
def dictLookup {κ ν : Type} [DecidableEq κ] (m : List (κ × ν)) (k : κ) : Option ν :=
  match m with
  | [] => none
  | p :: rest => if p.1 = k then some p.2 else dictLookup rest k

/-- Insert-or-replace update of an association list, the model of Python
dictionary assignment `dict[k] = v`: an existing key keeps its position
and gets the new value, a fresh key is appended. -/
def dictInsert {κ ν : Type} [DecidableEq κ] (m : List (κ × ν)) (k : κ) (v : ν) :
    List (κ × ν) :=
  if m.any (fun p => decide (p.1 = k)) then
    m.map (fun p => if p.1 = k then (k, v) else p)
  else
    m ++ [(k, v)]

/-! ## RAG service: search results and answer-context construction
(`app/services/rag_service.py`) -/

/-- The code points Python `str.strip()` removes. -/
def isPySpace (n : Nat) : Bool :=
  n ∈ [9, 10, 11, 12, 13, 28, 29, 30, 31, 32, 133, 160, 5760,
       8192, 8193, 8194, 8195, 8196, 8197, 8198, 8199, 8200, 8201, 8202,
       8232, 8233, 8239, 8287, 12288]

/-- Python `str.strip()` on a string: drop leading and trailing
whitespace characters. -/
def pyStripString (s : String) : String :=
  String.mk (((s.data.dropWhile (fun c => isPySpace c.toNat)).reverse.dropWhile
    (fun c => isPySpace c.toNat)).reverse)

/-- `SearchResult` of `rag_service.py` (the opaque `metadata` payload map
is elided). -/
structure SearchResult where
  document_id : String
  chunk_id : String
  content : String
  score : ℚ
  deriving Repr, DecidableEq

/-- The f-string `f"Source: {content}"` used by `answer_question`. -/
def sourceLine (content : String) : String :=
  "Source: " ++ content

/-- Python `s.rsplit(' ', 1)[0]`: everything before the last space, or the
whole string when it contains no space. -/
def rsplitBeforeLastSpace (cs : List Char) : List Char :=
  if ' ' ∈ cs then
    ((cs.reverse.dropWhile (fun c => decide (c ≠ ' '))).tail).reverse
  else
    cs

/-- `result.content[:remaining_space].rsplit(' ', 1)[0]` from
`answer_question`: the word-boundary-truncated excerpt of an overflowing
chunk. -/
def partialExcerpt (content : String) (room : Nat) : String :=
  String.mk (rsplitBeforeLastSpace ((content.take room).data))

/-- The context-building loop of `answer_question`
(`rag_service.py`, the `for result in search_results:` loop): walks the
retrieved results carrying the running character total, the collected
context parts and the collected used sources.  A chunk that fits is
appended in full and recorded as a used source; on overflow, when more
than 100 characters of budget remain, a word-boundary-truncated excerpt
suffixed `"..."` is appended (without recording the source) and the loop
stops, otherwise the loop stops immediately. -/
def buildContextGo (limit : Nat) :
    List SearchResult → Nat → List String → List SearchResult →
    List String × List SearchResult
  | [], _, parts, used => (parts, used)
  | r :: rest, total, parts, used =>
    if limit < total + r.content.length then
      if 100 < limit - total then
        (parts ++ [sourceLine (partialExcerpt r.content (limit - total)) ++ "..."], used)
      else
        (parts, used)
    else
      buildContextGo limit rest (total + r.content.length)
        (parts ++ [sourceLine r.content]) (used ++ [r])

/-- Context construction of `answer_question`: the loop started with an
empty context, empty used-source list and a zero running total. -/
def buildContext (searchResults : List SearchResult) (contextLimit : Nat) :
    List String × List SearchResult :=
  buildContextGo contextLimit searchResults 0 [] []

/-- Sum of the content lengths of a list of results: the value reached by
`total_length` after the listed results were appended in full. -/
def ctxLen (results : List SearchResult) : Nat :=
  (results.map (fun r => r.content.length)).sum

/-- `_calculate_confidence` of `rag_service.py`: `0.0` for no sources,
otherwise `min(top_score * 0.7 + min(len(sources) / 3.0, 1.0) * 0.3, 1.0)`
where `top_score` is the score of the FIRST source in the list. -/
def calcConfidence : List SearchResult → ℚ
  | [] => 0
  | s :: rest =>
    let topScore := s.score
    let sourceCountFactor := pyMin (((s :: rest).length : ℚ) / 3) 1
    pyMin (topScore * (7/10) + sourceCountFactor * (3/10)) 1

/-- The confidence reported by `answer_question`: `_calculate_confidence`
of the used sources when there are any, else `0.0`
(`confidence = self._calculate_confidence(used_sources) if used_sources else 0.0`). -/
def answerConfidence (searchResults : List SearchResult) (contextLimit : Nat) : ℚ :=
  let used := (buildContext searchResults contextLimit).2
  if used.isEmpty then 0 else calcConfidence used

/-! ## RAG service: similarity search (`search_similar`) -/

/-- One row of the `chunk_metadata` map of `rag_service.py` (the opaque
inner `metadata` payload map is elided). -/
structure ChunkMeta where
  chunk_id : String
  document_id : String
  content : String
  start_index : Nat
  end_index : Nat
  added_timestamp : ℚ
  deriving Repr, DecidableEq

/-- `score_threshold = score_threshold or self.settings.similarity_threshold`:
Python `or` falls back to the configured default both when the parameter
was omitted (`None`) and when it was supplied as the falsy `0.0`. -/
def effectiveThreshold (scoreThreshold : Option ℚ) (configThreshold : ℚ) : ℚ :=
  match scoreThreshold with
  | none => configThreshold
  | some t => if t = 0 then configThreshold else t

/-- Builds the `SearchResult` for a surviving FAISS hit. -/
def resultOfMeta (meta : ChunkMeta) (similarityScore : ℚ) : SearchResult :=
  { document_id := meta.document_id
    chunk_id := meta.chunk_id
    content := meta.content
    score := similarityScore }

/-- The post-search processing of `search_similar` (`rag_service.py`,
lines 399-429), applied to the `(distance, index)` pairs FAISS returned:
skips the sentinel index `-1`, converts each L2 distance `d` to
`1 / (1 + d)`, skips scores below the effective threshold, skips rows
without `chunk_metadata`, and finally sorts by score descending (a stable
sort, as Python `list.sort`). -/
def searchSimilarResults (faissHits : List (ℚ × Int)) (chunk_metadata : List (Int × ChunkMeta))
    (scoreThreshold : Option ℚ) (configThreshold : ℚ) : List SearchResult :=
  let threshold := effectiveThreshold scoreThreshold configThreshold
  let results := faissHits.foldl (fun acc hit =>
    if hit.2 = -1 then acc
    else
      let similarityScore := 1 / (1 + hit.1)
      if similarityScore < threshold then acc
      else
        match dictLookup chunk_metadata hit.2 with
        | none => acc
        | some meta => acc ++ [resultOfMeta meta similarityScore]) []
  results.mergeSort (fun a b => decide (b.score ≤ a.score))

/-- The per-hit outcome of the `search_similar` loop, used to state what
the loop collects. -/
def hitResult (chunk_metadata : List (Int × ChunkMeta)) (threshold : ℚ) (hit : ℚ × Int) :
    Option SearchResult :=
  if hit.2 = -1 then none
  else
    let similarityScore := 1 / (1 + hit.1)
    if similarityScore < threshold then none
    else
      match dictLookup chunk_metadata hit.2 with
      | none => none
      | some meta => some (resultOfMeta meta similarityScore)

/-! ## Document service: `create_chunks` validation
(`app/services/document_service.py`) -/

/-- A raised `ValidationError(message, field=...)`. -/
structure ValidationErr where
  message : String
  field : String
  deriving Repr, DecidableEq

/-- The configured chunking defaults (`Settings.chunk_size`,
`Settings.chunk_overlap`; the schema enforces `chunk_size ≥ 1` and
`chunk_overlap ≥ 0`). -/
structure ChunkDefaults where
  chunk_size : Int
  chunk_overlap : Int
  deriving Repr, DecidableEq

/-- The configuration defaults: `chunk_size=1000`, `chunk_overlap=200`. -/
def configChunkDefaults : ChunkDefaults :=
  { chunk_size := 1000, chunk_overlap := 200 }

/-- `param or default`: Python `or` substitutes the default both for
`None` and for a supplied `0`. -/
def orDefault (param : Option Int) (dflt : Int) : Int :=
  match param with
  | none => dflt
  | some v => if v = 0 then dflt else v

/-- `create_chunks` of `document_service.py`.  The third-party recursive
splitter (`RecursiveCharacterTextSplitter.split_text`) is outside the
repository and is passed in as a function of the trimmed text and the
effective size and overlap; everything else — default substitution via
`or`, the three validations, trimming, and the blank-input early return —
is the service's own code. -/
def create_chunks (splitter : String → Int → Int → List String)
    (defaults : ChunkDefaults) (text : String)
    (chunk_size overlap : Option Int) : Except ValidationErr (List String) :=
  let size := orDefault chunk_size defaults.chunk_size
  let ov := orDefault overlap defaults.chunk_overlap
  if size ≤ 0 then
    .error { message := "Chunk size must be positive", field := "chunk_size" }
  else if ov < 0 then
    .error { message := "Overlap must be non-negative", field := "overlap" }
  else if size ≤ ov then
    .error { message := "Overlap must be less than chunk size", field := "overlap" }
  else
    let trimmed := pyStripString text
    if trimmed = "" then .ok []
    else .ok (splitter trimmed size ov)

/-! ## API dependency layer: upload validation (`app/api/deps.py`) -/

/-- The fields of a FastAPI `UploadFile` that `validate_file_upload`
inspects.  `filename` may be absent or empty (both falsy in Python);
`size` may be unreported (`hasattr` fails or the value is falsy). -/
structure UploadFile where
  filename : Option String
  size : Option Nat
  deriving Repr, DecidableEq

/-- Index of the last occurrence of `c`, or `-1` — Python `str.rfind`. -/
def rfindIdx (cs : List Char) (c : Char) : Int :=
  match cs.reverse.findIdx? (fun x => decide (x = c)) with
  | none => -1
  | some j => (cs.length : Int) - 1 - j

/-- The extension part of `os.path.splitext` (posix): the suffix from the
last dot of the basename, unless every character of the basename before
that dot is itself a dot (then there is no extension). -/
def splitextExt (filename : String) : String :=
  let cs := filename.data
  let sepIndex := rfindIdx cs '/'
  let dotIndex := rfindIdx cs '.'
  if sepIndex < dotIndex then
    let base := (cs.take dotIndex.toNat).drop (sepIndex + 1).toNat
    if base.any (fun x => decide (x ≠ '.')) then String.mk (cs.drop dotIndex.toNat) else ""
  else ""

/-- `validate_file_upload` of `deps.py`: missing file or falsy filename →
HTTP 400; lower-cased extension outside the configured set → HTTP 400; a
reported (truthy) size above the configured maximum → HTTP 413
(`status.HTTP_413_REQUEST_ENTITY_TOO_LARGE`); otherwise the file is
returned.  Errors are modelled as `(status code, detail)`; the numeric
megabyte interpolation of the oversize detail is elided. -/
def validate_file_upload (file : Option UploadFile) (supported_extensions : List String)
    (max_file_size : Nat) : Except (Nat × String) UploadFile :=
  match file with
  | none => .error (400, "No file provided")
  | some f =>
    match f.filename with
    | none => .error (400, "No file provided")
    | some name =>
      if name = "" then .error (400, "No file provided")
      else
        let ext := String.mk ((splitextExt name).data.map Char.toLower)
        if ext ∉ supported_extensions then
          .error (400, "Unsupported file type: " ++ ext)
        else
          match f.size with
          | none => .ok f
          | some sz =>
            if sz = 0 then .ok f
            else if max_file_size < sz then
              .error (413, "File too large. Maximum size: 10.0MB")
            else .ok f

/-- The HTTP status of a rejected upload, `none` for an accepted one. -/
def uploadErrorStatus (r : Except (Nat × String) UploadFile) : Option Nat :=
  match r with
  | .error (s, _) => some s
  | .ok _ => none

/-! ## RAG service: vector-store bookkeeping (`add_document`,
`delete_document`) -/

/-- A `DocumentChunk` as consumed by `add_document` (the opaque per-chunk
`metadata` payload map is elided). -/
structure Chunk where
  id : String
  content : String
  start_index : Nat
  end_index : Nat
  deriving Repr, DecidableEq

/-- A `ProcessedDocument` as consumed by `add_document` (only the fields
`add_document` reads). -/
structure ProcessedDoc where
  id : String
  chunks : List Chunk
  deriving Repr, DecidableEq

/-- The vector-store bookkeeping state of `RAGService`: the FAISS index
abstracted to its vector count `ntotal`, plus the two auxiliary maps.
Row indices are Python ints (FAISS reports `-1` as a search sentinel),
hence `Int` keys. -/
structure RagState where
  ntotal : Nat
  chunk_metadata : List (Int × ChunkMeta)
  document_chunks : List (String × List Int)
  deriving Repr, DecidableEq

/-- The fresh RAG state: an empty index and empty maps. -/
def emptyState : RagState :=
  { ntotal := 0, chunk_metadata := [], document_chunks := [] }

/-- The row-index computation of `add_document`: the batching loop
`for i in range(0, len(chunk_texts), batch_size):` extends
`chunk_indices` by `range(start_idx, start_idx + len(batch_texts))` with
`start_idx = self.index.ntotal + len(chunk_indices)` (and `ntotal` still
the pre-append count, the FAISS append happens after the loop). -/
def batchIndicesGo (ntotal n b : Nat) : Nat → Nat → List Int → List Int
  | 0, _, acc => acc
  | fuel + 1, i, acc =>
    if i < n ∧ 0 < b then
      let batchLen := min b (n - i)
      let start := ntotal + acc.length
      batchIndicesGo ntotal n b fuel (i + b)
        (acc ++ (List.range batchLen).map (fun j => ((start + j : Nat) : Int)))
    else
      acc

/-- The row indices `chunk_indices` computed by `add_document` for `n`
chunks against a pre-append vector count `ntotal` with batch size `b`:
the batching loop started at `i = 0` with an empty accumulator (the fuel
`n` bounds the iteration count, which is at most `n` since each
iteration advances `i` by `b ≥ 1`). -/
def batchIndices (ntotal n b : Nat) : List Int :=
  batchIndicesGo ntotal n b n 0 []

/-- `add_document` of `rag_service.py`: fails on a document with no
chunks (before any mutation); `range(0, n, 0)` in the batching loop is a
Python `ValueError`, also before any mutation; otherwise computes the
batch row indices, appends one vector per chunk to the index
(`ntotal + n`), stores one `chunk_metadata` entry per `(chunk, row)`
pair, assigns `document_chunks[doc.id]` the full row list and returns
the document id.  `now` is the ambient `time.time()` stamped into each
metadata entry. -/
def addDocument (st : RagState) (doc : ProcessedDoc) (batch_size : Nat) (now : ℚ) :
    Except String (RagState × String) :=
  if doc.chunks.isEmpty then
    .error "Document has no chunks to add"
  else if batch_size = 0 then
    .error "range() arg 3 must not be zero"
  else
    let chunkIndices := batchIndices st.ntotal doc.chunks.length batch_size
    let newMeta := (doc.chunks.zip chunkIndices).foldl
      (fun m p => dictInsert m p.2
        { chunk_id := p.1.id
          document_id := doc.id
          content := p.1.content
          start_index := p.1.start_index
          end_index := p.1.end_index
          added_timestamp := now }) st.chunk_metadata
    .ok ({ ntotal := st.ntotal + doc.chunks.length
           chunk_metadata := newMeta
           document_chunks := dictInsert st.document_chunks doc.id chunkIndices },
         doc.id)

/-- `delete_document` of `rag_service.py`: an unknown id returns `false`
without touching anything; a known id pops every associated row from
`chunk_metadata`, deletes the `document_chunks` entry and returns `true`;
`ntotal` is untouched (FAISS vectors are not physically removed). -/
def deleteDocument (st : RagState) (document_id : String) : RagState × Bool :=
  match dictLookup st.document_chunks document_id with
  | none => (st, false)
  | some chunkIndices =>
    ({ ntotal := st.ntotal
       chunk_metadata := st.chunk_metadata.filter (fun p => !(chunkIndices.contains p.1))
       document_chunks := st.document_chunks.filter (fun p => !(decide (p.1 = document_id))) },
     true)

/-- A mutating RAG-service operation. -/
inductive RagOp where
  | add (doc : ProcessedDoc) (batch_size : Nat) (now : ℚ)
  | del (document_id : String)

/-- Applies one operation; a raising `add_document` leaves the state
unchanged (both error paths raise before mutating). -/
def applyOp (st : RagState) (op : RagOp) : RagState :=
  match op with
  | .add doc b now =>
    match addDocument st doc b now with
    | .ok (st2, _) => st2
    | .error _ => st
  | .del document_id => (deleteDocument st document_id).1

/-- Runs a sequence of RAG operations from the fresh empty state. -/
def runOps (ops : List RagOp) : RagState :=
  ops.foldl applyOp emptyState

/-- The bookkeeping invariant of §3 of the design: every row index
present in any `document_chunks` list has a `chunk_metadata` entry and is
strictly below the index's vector count (`ntotal ≥ r + 1`). -/
def rowsBound (st : RagState) : Prop :=
  ∀ d rows, dictLookup st.document_chunks d = some rows →
    ∀ r ∈ rows, (dictLookup st.chunk_metadata r).isSome ∧ r < (st.ntotal : Int)

/-- Every `chunk_metadata` key is below the vector count. -/
def metaKeysBound (st : RagState) : Prop :=
  ∀ p ∈ st.chunk_metadata, p.1 < (st.ntotal : Int)

/-- Distinct documents reference disjoint row-index lists. -/
def docsDisjoint (st : RagState) : Prop :=
  ∀ d1 d2 rows1 rows2, d1 ≠ d2 →
    dictLookup st.document_chunks d1 = some rows1 →
    dictLookup st.document_chunks d2 = some rows2 →
    ∀ r ∈ rows1, r ∉ rows2

/-- Well-formedness of a RAG state: dictionary keys are unique (Python
dicts), metadata keys are below the vector count, the bookkeeping
invariant holds, and distinct documents own disjoint rows. -/
def WellFormed (st : RagState) : Prop :=
  (st.chunk_metadata.map Prod.fst).Nodup ∧
  (st.document_chunks.map Prod.fst).Nodup ∧
  metaKeysBound st ∧ rowsBound st ∧ docsDisjoint st

/-! ## URL document service (`app/services/url_document_service.py`) -/

/-- A Python string is a sequence of code points and may carry lone
surrogates; answers are therefore modelled as code-point lists.
`s.encode('utf-8', errors='ignore').decode('utf-8')` drops exactly the
surrogate code points. -/
def isSurrogate (n : Nat) : Bool :=
  decide (55296 ≤ n ∧ n ≤ 57343)

/-- Python `str.strip()` on a code-point list: drop leading and trailing
whitespace. -/
def pyStrip (cs : List Nat) : List Nat :=
  ((cs.dropWhile isPySpace).reverse.dropWhile isPySpace).reverse

/-- The code points of a Lean string literal. -/
def strCodes (s : String) : List Nat :=
  s.data.map Char.toNat

/-- The fixed fallback sentence substituted for a blank answer. -/
def fallbackAnswer : List Nat :=
  strCodes "I could not find sufficient information to answer this question."

/-- The body of the per-question `try`/`except` of
`process_and_answer_questions`: an exception becomes the inline error
string; a successful answer is re-encoded through UTF-8 with invalid
sequences dropped, stripped, and replaced by the fallback sentence when
empty. -/
def answerSlot (res : Except String (List Nat)) : List Nat :=
  match res with
  | .error msg => strCodes "Error processing question: " ++ strCodes msg
  | .ok ans =>
    let clean := pyStrip (ans.filter (fun c => !(isSurrogate c)))
    if clean.isEmpty then fallbackAnswer else clean

/-- The `for i, question in enumerate(questions, 1):` loop of
`process_and_answer_questions`, appending each question's slot to the
accumulated answer list. -/
def answerLoopGo (answerQ : String → Except String (List Nat)) :
    List String → List (List Nat) → List (List Nat)
  | [], acc => acc
  | q :: rest, acc => answerLoopGo answerQ rest (acc ++ [answerSlot (answerQ q)])

/-- `process_and_answer_questions` of `url_document_service.py`.  The
download, the document processing and the vector-store insertion are
awaited service calls modelled as `Except`-valued inputs; the outer
`except` wraps any failure into a `DocumentProcessingError` whose message
prefixes the original.  The oversize check, the question loop, the
sanitization and the inline-error substitution are the service's own
code. -/
def process_and_answer_questions
    (downloadRes : Except String (String × String × Nat))
    (max_file_size : Nat)
    (processRes : String → Except String ProcessedDoc)
    (addRes : ProcessedDoc → Except String Unit)
    (answerQ : String → Except String (List Nat))
    (questions : List String) : Except String (List (List Nat)) :=
  match downloadRes with
  | .error e => .error ("Failed to process document: " ++ e)
  | .ok (path, _contentType, fileSize) =>
    if max_file_size < fileSize then
      .error ("Failed to process document: File too large")
    else
      match processRes path with
      | .error e => .error ("Failed to process document: " ++ e)
      | .ok doc =>
        match addRes doc with
        | .error e => .error ("Failed to process document: " ++ e)
        | .ok _ => .ok (answerLoopGo answerQ questions [])

/-! ## Q&A API: session access control (`app/api/endpoints/qa.py`) and
identity resolution (`app/api/deps.py`) -/

/-- `get_current_user` of `deps.py`: any bearer credential at all yields
the fixed placeholder identity, no credential yields `None`. -/
def get_current_user (credentials : Option String) : Option String :=
  match credentials with
  | some _ => some "default_user"
  | none => none

/-- Truthiness of the resolved `current_user` string: `None` and the
empty string are falsy. -/
def userTruthy (user : Option String) : Bool :=
  match user with
  | some u => decide (u ≠ "")
  | none => false

/-- One message of an in-memory chat session. -/
structure ChatMessage where
  id : String
  role : String
  content : String
  deriving Repr, DecidableEq

/-- An in-memory chat session: `session.get("user")` may be `None` (a
session created without a resolved identity) and the ordered message
list. -/
structure ChatSession where
  user : Option String
  messages : List ChatMessage
  deriving Repr, DecidableEq

/-- Outcome of `GET /qa/history/{session_id}`. -/
inductive HistoryResult where
  | notFound (detail : String)
  | forbidden (detail : String)
  | ok (messages : List ChatMessage) (total_messages : Nat)
  deriving Repr, DecidableEq

/-- `get_conversation_history` of `qa.py`: 404 for an unknown session;
403 when a truthy identity is present and differs from the session's
recorded owner (`if current_user and session.get("user") != current_user`);
otherwise the paginated slice `messages[offset:offset + limit]` plus the
total count. -/
def get_conversation_history (chat_sessions : List (String × ChatSession))
    (session_id : String) (limit offset : Nat) (current_user : Option String) :
    HistoryResult :=
  match dictLookup chat_sessions session_id with
  | none => .notFound ("Chat session not found: " ++ session_id)
  | some session =>
    if userTruthy current_user && decide (session.user ≠ current_user) then
      .forbidden "Access denied to this chat session"
    else
      .ok ((session.messages.drop offset).take limit) session.messages.length

/-- Outcome of `DELETE /qa/sessions/{session_id}`. -/
inductive DeleteSessionResult where
  | notFound (detail : String)
  | forbidden (detail : String)
  | ok (message_count : Nat)
  deriving Repr, DecidableEq

/-- `delete_chat_session` of `qa.py`: 404 for an unknown session; the
same ownership check as the history endpoint; otherwise removes the
session and reports how many messages it held. -/
def delete_chat_session (chat_sessions : List (String × ChatSession))
    (session_id : String) (current_user : Option String) :
    List (String × ChatSession) × DeleteSessionResult :=
  match dictLookup chat_sessions session_id with
  | none => (chat_sessions, .notFound ("Chat session not found: " ++ session_id))
  | some session =>
    if userTruthy current_user && decide (session.user ≠ current_user) then
      (chat_sessions, .forbidden "Access denied to this chat session")
    else
      (chat_sessions.filter (fun p => !(decide (p.1 = session_id))),
       .ok session.messages.length)

/-! ## Sliding-window rate limiter (`RateLimitDependency.__call__` of
`app/api/deps.py`) -/

/-- `identifier = user or "anonymous"`. -/
def rateIdentifier (user : Option String) : String :=
  match user with
  | some u => if u = "" then "anonymous" else u
  | none => "anonymous"

/-- The clean-old-entries dict comprehension: keys are kept exactly when
some recorded timestamp is still inside the window (whole lists are kept
or dropped, individual expired entries are not removed). -/
def pruneHistory (hist : List (String × List ℚ)) (window now : ℚ) :
    List (String × List ℚ) :=
  hist.filter (fun p => p.2.any (fun ts => decide (now - window < ts)))

/-- In-window timestamps of one identity: `ts > current_time - window`. -/
def recentRequests (timestamps : List ℚ) (window now : ℚ) : List ℚ :=
  timestamps.filter (fun ts => decide (now - window < ts))

/-- `RateLimitDependency.__call__`: prunes fully-expired identities,
filters the caller's history to the current window, rejects (returning
the pruned state unchanged — the raise happens before the append) once
the in-window count reaches `max_requests`, and otherwise records the
current timestamp and allows the request.  Returns the new
`request_history` and whether the request was allowed. -/
def rateLimitCall (hist : List (String × List ℚ)) (max_requests : Nat)
    (window now : ℚ) (user : Option String) : List (String × List ℚ) × Bool :=
  let identifier := rateIdentifier user
  let cleaned := pruneHistory hist window now
  let userRequests := (dictLookup cleaned identifier).getD []
  let recent := recentRequests userRequests window now
  if max_requests ≤ recent.length then
    (cleaned, false)
  else
    (dictInsert cleaned identifier (recent ++ [now]), true)

/-! ## Concrete instances used to exercise the theorems -/

/-- A 10-character chunk that fits a 120-character context budget. -/
def crA : SearchResult :=
  { document_id := "d1", chunk_id := "c1",
    content := String.mk (List.replicate 10 'a'), score := mkRat 9 10 }

/-- A 150-character chunk that overflows the remaining budget while more
than 100 characters of budget remain. -/
def crB : SearchResult :=
  { document_id := "d1", chunk_id := "c2",
    content := String.mk (List.replicate 150 'b'), score := mkRat 85 100 }

/-- Three short retrieved chunks with scores 0.9, 0.85 and 0.8. -/
def cr1 : SearchResult :=
  { document_id := "d1", chunk_id := "c1", content := "alpha", score := mkRat 9 10 }

/-- See `cr1`. -/
def cr2 : SearchResult :=
  { document_id := "d1", chunk_id := "c2", content := "beta", score := mkRat 85 100 }

/-- See `cr1`. -/
def cr3 : SearchResult :=
  { document_id := "d2", chunk_id := "c3", content := "gamma", score := mkRat 8 10 }

/-- A metadata entry for row 0. -/
def cmeta0 : ChunkMeta :=
  { chunk_id := "c0", document_id := "d0", content := "hello",
    start_index := 0, end_index := 5, added_timestamp := 0 }

/-- A processed document with three chunks. -/
def doc0 : ProcessedDoc :=
  { id := "docA",
    chunks :=
      [{ id := "docA_chunk_0", content := "one", start_index := 0, end_index := 3 },
       { id := "docA_chunk_1", content := "two", start_index := 3, end_index := 6 },
       { id := "docA_chunk_2", content := "three", start_index := 6, end_index := 11 }] }

/-- A second processed document with one chunk. -/
def doc1 : ProcessedDoc :=
  { id := "docB",
    chunks := [{ id := "docB_chunk_0", content := "four", start_index := 0, end_index := 4 }] }

/-- A chat-session store holding one session owned by a resolved user. -/
def sessions0 : List (String × ChatSession) :=
  [("s1", { user := some "default_user",
            messages := [{ id := "m1", role := "user", content := "hi" }] })]

/-! # Theorems -/

/-! ## Association-list helper lemmas -/

theorem dictLookup_append {κ ν : Type} [DecidableEq κ] (m1 m2 : List (κ × ν)) (k : κ) :
    dictLookup (m1 ++ m2) k =
      match dictLookup m1 k with
      | some v => some v
      | none => dictLookup m2 k := by
  induction m1 with
  | nil => simp [dictLookup]
  | cons p rest ih =>
    by_cases h : p.1 = k <;> simp [dictLookup, h, ih]

theorem dictLookup_eq_none {κ ν : Type} [DecidableEq κ] (m : List (κ × ν)) (k : κ)
    (h : k ∉ m.map Prod.fst) : dictLookup m k = none := by
  induction m with
  | nil => simp [dictLookup]
  | cons p rest ih =>
    simp only [List.map_cons, List.mem_cons] at h
    push_neg at h
    have hne : ¬ p.1 = k := by
      intro he
      exact h.1 he.symm
    simp [dictLookup, hne, ih h.2]

theorem lookup_isSome_of_any {κ ν : Type} [DecidableEq κ] (m : List (κ × ν)) (k : κ)
    (h : m.any (fun p => decide (p.1 = k)) = true) : (dictLookup m k).isSome := by
  induction m with
  | nil => simp at h
  | cons p rest ih =>
    by_cases hp : p.1 = k
    · simp [dictLookup, hp]
    · simp only [List.any_cons, Bool.or_eq_true, decide_eq_true_eq] at h
      rcases h with h1 | h2
      · exact absurd h1 hp
      · simpa [dictLookup, hp] using ih h2

theorem any_key_of_mem {κ ν : Type} [DecidableEq κ] (m : List (κ × ν)) (k : κ)
    (h : k ∈ m.map Prod.fst) : m.any (fun p => decide (p.1 = k)) = true := by
  simp only [List.mem_map] at h
  obtain ⟨p, hp, hpk⟩ := h
  exact List.any_eq_true.mpr ⟨p, hp, by simp [hpk]⟩

theorem mapReplace_lookup_self {κ ν : Type} [DecidableEq κ] (m : List (κ × ν))
    (k : κ) (v : ν) :
    dictLookup (m.map (fun p => if p.1 = k then (k, v) else p)) k =
      (dictLookup m k).map (fun _ => v) := by
  induction m with
  | nil => simp [dictLookup]
  | cons p rest ih =>
    by_cases hp : p.1 = k
    · simp [dictLookup, hp]
    · simp [dictLookup, hp, ih]

theorem mapReplace_lookup_ne {κ ν : Type} [DecidableEq κ] (m : List (κ × ν))
    (k k2 : κ) (v : ν) (h : k2 ≠ k) :
    dictLookup (m.map (fun p => if p.1 = k then (k, v) else p)) k2 = dictLookup m k2 := by
  induction m with
  | nil => simp [dictLookup]
  | cons p rest ih =>
    by_cases hp : p.1 = k
    · have h1 : ¬ k = k2 := fun he => h he.symm
      have h2 : ¬ p.1 = k2 := by
        rw [hp]
        exact h1
      simp [dictLookup, hp, h1, h2, ih]
    · by_cases hk2 : p.1 = k2 <;> simp [dictLookup, hp, hk2, h, ih]

theorem mapReplace_keys {κ ν : Type} [DecidableEq κ] (m : List (κ × ν)) (k : κ) (v : ν) :
    (m.map (fun p => if p.1 = k then (k, v) else p)).map Prod.fst = m.map Prod.fst := by
  induction m with
  | nil => simp
  | cons p rest ih =>
    by_cases hp : p.1 = k <;> simp [hp, ih]

theorem dictLookup_dictInsert_self {κ ν : Type} [DecidableEq κ] (m : List (κ × ν))
    (k : κ) (v : ν) : dictLookup (dictInsert m k v) k = some v := by
  unfold dictInsert
  split
  case isTrue hany =>
    rw [mapReplace_lookup_self]
    have := lookup_isSome_of_any m k hany
    cases hl : dictLookup m k with
    | none => rw [hl] at this; simp at this
    | some w => simp
  case isFalse hany =>
    rw [dictLookup_append]
    have hnone : dictLookup m k = none := by
      apply dictLookup_eq_none
      intro hk
      exact hany (any_key_of_mem m k hk)
    rw [hnone]
    simp [dictLookup]

theorem dictLookup_dictInsert_ne {κ ν : Type} [DecidableEq κ] (m : List (κ × ν))
    (k k2 : κ) (v : ν) (h : k2 ≠ k) :
    dictLookup (dictInsert m k v) k2 = dictLookup m k2 := by
  unfold dictInsert
  split
  case isTrue hany => exact mapReplace_lookup_ne m k k2 v h
  case isFalse hany =>
    rw [dictLookup_append]
    cases hlk : dictLookup m k2 with
    | some v2 => simp
    | none =>
      have : ¬ k = k2 := fun he => h he.symm
      simp [dictLookup, this]

theorem dictInsert_keys_nodup {κ ν : Type} [DecidableEq κ] (m : List (κ × ν)) (k : κ) (v : ν)
    (h : (m.map Prod.fst).Nodup) : ((dictInsert m k v).map Prod.fst).Nodup := by
  unfold dictInsert
  split
  case isTrue hany =>
    rw [mapReplace_keys]
    exact h
  case isFalse hany =>
    simp only [List.map_append, List.map_cons, List.map_nil]
    rw [List.nodup_append]
    refine ⟨h, by simp, ?_⟩
    intro a ha hb
    simp only [List.mem_singleton] at hb
    subst hb
    exact hany (any_key_of_mem m _ ha)

theorem dictInsert_key_mem {κ ν : Type} [DecidableEq κ] (m : List (κ × ν)) (k : κ) (v : ν)
    (p : κ × ν) (hp : p ∈ dictInsert m k v) : p.1 = k ∨ p.1 ∈ m.map Prod.fst := by
  unfold dictInsert at hp
  split at hp
  case isTrue hany =>
    simp only [List.mem_map] at hp
    obtain ⟨q, hq, hqe⟩ := hp
    by_cases hqk : q.1 = k
    · left
      rw [← hqe]
      simp [hqk]
    · right
      rw [← hqe]
      simp only [hqk, if_false]
      exact List.mem_map_of_mem Prod.fst hq
  case isFalse hany =>
    rcases List.mem_append.mp hp with h1 | h2
    · right
      exact List.mem_map_of_mem Prod.fst h1
    · left
      simp only [List.mem_singleton] at h2
      rw [h2]

theorem dictLookup_filter_key_ne {κ ν : Type} [DecidableEq κ] (m : List (κ × ν))
    (k kdel : κ) (h : k ≠ kdel) :
    dictLookup (m.filter (fun p => !(decide (p.1 = kdel)))) k = dictLookup m k := by
  induction m with
  | nil => simp [dictLookup]
  | cons p rest ih =>
    by_cases hp : p.1 = kdel
    · have hne : ¬ p.1 = k := by
        intro he
        exact h (he ▸ hp)
      simp [List.filter_cons, hp, dictLookup, hne, Ne.symm h, ih]
    · by_cases hk : p.1 = k <;> simp [List.filter_cons, hp, dictLookup, hk, h, ih]

/-! ## C2: `create_chunks` parameter validation -/

/-- C2 (amended): `create_chunks` substitutes the configured defaults for
an omitted OR zero `chunk_size`/`overlap` (Python `or` treats `0` as
absent), and only then validates: a negative supplied `chunk_size` fails
with the chunk-size error; a negative supplied `overlap` fails with the
overlap-nonnegative error; an effective overlap at or above the effective
chunk size fails with the overlap-less-than error; and when the effective
parameters are valid, input that is blank after trimming yields `[]`.  In
particular `create_chunks(text, chunk_size=0, overlap=0)` behaves exactly
like a call with both defaults. -/
theorem create_chunks_validation (splitter : String → Int → Int → List String)
    (defaults : ChunkDefaults) (text : String) (chunk_size overlap : Option Int) :
    (create_chunks splitter defaults text (some 0) (some 0) =
       create_chunks splitter defaults text none none) ∧
    (∀ v, chunk_size = some v → v < 0 →
       create_chunks splitter defaults text chunk_size overlap =
         .error { message := "Chunk size must be positive", field := "chunk_size" }) ∧
    (∀ w, overlap = some w → w < 0 → 0 < orDefault chunk_size defaults.chunk_size →
       create_chunks splitter defaults text chunk_size overlap =
         .error { message := "Overlap must be non-negative", field := "overlap" }) ∧
    (0 < orDefault chunk_size defaults.chunk_size →
     0 ≤ orDefault overlap defaults.chunk_overlap →
     orDefault chunk_size defaults.chunk_size ≤ orDefault overlap defaults.chunk_overlap →
       create_chunks splitter defaults text chunk_size overlap =
         .error { message := "Overlap must be less than chunk size", field := "overlap" }) ∧
    (0 < orDefault chunk_size defaults.chunk_size →
     0 ≤ orDefault overlap defaults.chunk_overlap →
     orDefault overlap defaults.chunk_overlap < orDefault chunk_size defaults.chunk_size →
     pyStripString text = "" →
       create_chunks splitter defaults text chunk_size overlap = .ok []) := by
  refine ⟨?_, ?_, ?_, ?_, ?_⟩
  · simp [create_chunks, orDefault]
  · intro v hv hneg
    subst hv
    unfold create_chunks
    rw [show orDefault (some v) defaults.chunk_size = v by simp [orDefault]; omega]
    rw [if_pos (by omega)]
  · intro w hw hneg hpos
    subst hw
    unfold create_chunks
    rw [if_neg (by omega)]
    rw [show orDefault (some w) defaults.chunk_overlap = w by simp [orDefault]; omega]
    rw [if_pos (by omega)]
  · intro h1 h2 h3
    unfold create_chunks
    rw [if_neg (by omega), if_neg (by omega), if_pos (by omega)]
  · intro h1 h2 h3 hblank
    unfold create_chunks
    rw [if_neg (by omega), if_neg (by omega), if_neg (by omega)]
    simp [hblank]

/-- Witness for C2's amended theorem: a supplied negative chunk size
fails with the chunk-size error against the configured defaults. -/
theorem create_chunks_validation_witness :
    ((-5 : Int) < 0) ∧
    create_chunks (fun t _ _ => [t]) configChunkDefaults "hello" (some (-5)) (some 2) =
      .error { message := "Chunk size must be positive", field := "chunk_size" } :=
  ⟨by decide,
   (create_chunks_validation (fun t _ _ => [t]) configChunkDefaults "hello"
       (some (-5)) (some 2)).2.1 (-5) rfl (by decide)⟩

/-- Counterexample to C2 as stated: `create_chunks(text, chunk_size=0,
overlap=0)` does NOT fail with the chunk-size error — Python `or`
substitutes the configured defaults (1000/200) for the falsy `0` values
and the call succeeds. -/
theorem create_chunks_claim_counterexample :
    create_chunks (fun t _ _ => [t]) configChunkDefaults "hello" (some 0) (some 0) =
      .ok ["hello"] := by
  rfl

/-! ## C3: oversize upload rejection status -/

theorem validate_file_upload_eq (name : String) (sz : Nat)
    (supported_extensions : List String) (max_file_size : Nat) :
    validate_file_upload (some { filename := some name, size := some sz })
      supported_extensions max_file_size =
      (if name = "" then Except.error (400, "No file provided")
       else if String.mk ((splitextExt name).data.map Char.toLower) ∉ supported_extensions then
         Except.error (400, "Unsupported file type: " ++
           String.mk ((splitextExt name).data.map Char.toLower))
       else if sz = 0 then Except.ok { filename := some name, size := some sz }
       else if max_file_size < sz then
         Except.error (413, "File too large. Maximum size: 10.0MB")
       else Except.ok { filename := some name, size := some sz }) := rfl

/-- C3 (amended): an upload whose reported size exceeds the configured
maximum is rejected by `validate_file_upload` with HTTP status 413
(`HTTP_413_REQUEST_ENTITY_TOO_LARGE`) and a descriptive message, not
with status 400 as the spec states. -/
theorem upload_oversize_413 (name : String) (sz max_file_size : Nat)
    (supported_extensions : List String)
    (hname : name ≠ "")
    (hext : String.mk ((splitextExt name).data.map Char.toLower) ∈ supported_extensions)
    (hpos : 0 < sz) (hover : max_file_size < sz) :
    validate_file_upload (some { filename := some name, size := some sz })
      supported_extensions max_file_size =
      .error (413, "File too large. Maximum size: 10.0MB") := by
  rw [validate_file_upload_eq, if_neg hname, if_neg (not_not_intro hext),
    if_neg (by omega : ¬ sz = 0), if_pos hover]

/-- Witness for C3's amended theorem: a 10,485,761-byte `.txt` upload
against the default 10,485,760-byte limit is rejected with status 413. -/
theorem upload_oversize_413_witness :
    ("doc.txt" ≠ "") ∧
    validate_file_upload (some { filename := some "doc.txt", size := some 10485761 })
      [".pdf", ".txt", ".docx", ".md"] 10485760 =
      .error (413, "File too large. Maximum size: 10.0MB") :=
  ⟨by decide,
   upload_oversize_413 "doc.txt" 10485761 10485760 [".pdf", ".txt", ".docx", ".md"]
     (by decide) (by decide) (by decide) (by decide)⟩

/-- Counterexample to C3 as stated: the oversize rejection carries HTTP
status 413, not the claimed 400. -/
theorem upload_oversize_claim_counterexample :
    uploadErrorStatus (validate_file_upload
      (some { filename := some "doc.txt", size := some 10485761 })
      [".pdf", ".txt", ".docx", ".md"] 10485760) = some 413 ∧ (413 : Nat) ≠ 400 := by
  decide

/-! ## C9: session endpoints skip the ownership check without identity -/

theorem get_conversation_history_eq_some (chat_sessions : List (String × ChatSession))
    (session_id : String) (limit offset : Nat) (cu : Option String) (s : ChatSession)
    (h : dictLookup chat_sessions session_id = some s) :
    get_conversation_history chat_sessions session_id limit offset cu =
      if (userTruthy cu && decide (s.user ≠ cu)) = true then
        .forbidden "Access denied to this chat session"
      else .ok ((s.messages.drop offset).take limit) s.messages.length := by
  unfold get_conversation_history
  rw [h]

theorem get_conversation_history_eq_none (chat_sessions : List (String × ChatSession))
    (session_id : String) (limit offset : Nat) (cu : Option String)
    (h : dictLookup chat_sessions session_id = none) :
    get_conversation_history chat_sessions session_id limit offset cu =
      .notFound ("Chat session not found: " ++ session_id) := by
  unfold get_conversation_history
  rw [h]

theorem delete_chat_session_eq_some (chat_sessions : List (String × ChatSession))
    (session_id : String) (cu : Option String) (s : ChatSession)
    (h : dictLookup chat_sessions session_id = some s) :
    delete_chat_session chat_sessions session_id cu =
      if (userTruthy cu && decide (s.user ≠ cu)) = true then
        (chat_sessions, .forbidden "Access denied to this chat session")
      else (chat_sessions.filter (fun p => !(decide (p.1 = session_id))),
            .ok s.messages.length) := by
  unfold delete_chat_session
  rw [h]

theorem delete_chat_session_eq_none (chat_sessions : List (String × ChatSession))
    (session_id : String) (cu : Option String)
    (h : dictLookup chat_sessions session_id = none) :
    delete_chat_session chat_sessions session_id cu =
      (chat_sessions, .notFound ("Chat session not found: " ++ session_id)) := by
  unfold delete_chat_session
  rw [h]

/-- C9: with no bearer credential `get_current_user` resolves no
identity, and then both `GET /qa/history/{session_id}` and
`DELETE /qa/sessions/{session_id}` succeed for every existing session
regardless of its recorded owner; the 403 "Access denied" branch of
either endpoint is reachable only when a (truthy) identity is resolved
and differs from the session's recorded owner. -/
theorem session_access_no_identity (chat_sessions : List (String × ChatSession))
    (session_id : String) (limit offset : Nat) :
    get_current_user none = none ∧
    (∀ s, dictLookup chat_sessions session_id = some s →
       get_conversation_history chat_sessions session_id limit offset (get_current_user none) =
         .ok ((s.messages.drop offset).take limit) s.messages.length ∧
       (delete_chat_session chat_sessions session_id (get_current_user none)).2 =
         .ok s.messages.length) ∧
    (∀ cu d, get_conversation_history chat_sessions session_id limit offset cu =
        .forbidden d →
       ∃ u s, cu = some u ∧ u ≠ "" ∧ dictLookup chat_sessions session_id = some s ∧
         s.user ≠ some u) ∧
    (∀ cu d, (delete_chat_session chat_sessions session_id cu).2 = .forbidden d →
       ∃ u s, cu = some u ∧ u ≠ "" ∧ dictLookup chat_sessions session_id = some s ∧
         s.user ≠ some u) := by
  refine ⟨rfl, ?_, ?_, ?_⟩
  · intro s hs
    constructor
    · rw [get_conversation_history_eq_some chat_sessions session_id limit offset _ s hs]
      rw [if_neg (by simp [get_current_user, userTruthy])]
    · rw [delete_chat_session_eq_some chat_sessions session_id _ s hs]
      rw [if_neg (by simp [get_current_user, userTruthy])]
  · intro cu d h
    cases hl : dictLookup chat_sessions session_id with
    | none =>
      rw [get_conversation_history_eq_none chat_sessions session_id limit offset cu hl] at h
      simp at h
    | some s =>
      rw [get_conversation_history_eq_some chat_sessions session_id limit offset cu s hl] at h
      by_cases hc : (userTruthy cu && decide (s.user ≠ cu)) = true
      · cases cu with
        | none => simp [userTruthy] at hc
        | some u =>
          simp only [userTruthy, Bool.and_eq_true, decide_eq_true_eq] at hc
          exact ⟨u, s, rfl, hc.1, rfl, fun he => hc.2 he⟩
      · rw [if_neg hc] at h
        simp at h
  · intro cu d h
    cases hl : dictLookup chat_sessions session_id with
    | none =>
      rw [delete_chat_session_eq_none chat_sessions session_id cu hl] at h
      simp at h
    | some s =>
      rw [delete_chat_session_eq_some chat_sessions session_id cu s hl] at h
      by_cases hc : (userTruthy cu && decide (s.user ≠ cu)) = true
      · cases cu with
        | none => simp [userTruthy] at hc
        | some u =>
          simp only [userTruthy, Bool.and_eq_true, decide_eq_true_eq] at hc
          exact ⟨u, s, rfl, hc.1, rfl, fun he => hc.2 he⟩
      · rw [if_neg hc] at h
        simp at h

/-- Witness for C9: the session of `sessions0` (owned by
`"default_user"`) is readable and deletable with no resolved identity. -/
theorem session_access_no_identity_witness :
    dictLookup sessions0 "s1" =
      some { user := some "default_user",
             messages := [{ id := "m1", role := "user", content := "hi" }] } ∧
    get_conversation_history sessions0 "s1" 50 0 (get_current_user none) =
      .ok ((({ user := some "default_user",
               messages := [{ id := "m1", role := "user", content := "hi" }] :
               ChatSession }).messages.drop 0).take 50)
        ({ user := some "default_user",
           messages := [{ id := "m1", role := "user", content := "hi" }] :
           ChatSession }).messages.length :=
  ⟨by decide,
   ((session_access_no_identity sessions0 "s1" 50 0).2.1
     { user := some "default_user",
       messages := [{ id := "m1", role := "user", content := "hi" }] } (by decide)).1⟩

/-! ## C1 / C6: context construction and confidence of `answer_question` -/

theorem ctxLen_cons (r : SearchResult) (l : List SearchResult) :
    ctxLen (r :: l) = r.content.length + ctxLen l := by
  simp [ctxLen]

/-- Characterization of the context-building loop for arbitrary
accumulator values: the loop takes a greedy prefix of the remaining
results, records exactly that prefix as used sources, and appends the
word-truncated excerpt of the first overflowing chunk exactly when more
than 100 characters of budget remain. -/
theorem buildContextGo_spec (limit : Nat) (rs : List SearchResult) :
    ∀ total parts used, total ≤ limit →
      ∃ took rest,
        rs = took ++ rest ∧
        (buildContextGo limit rs total parts used).2 = used ++ took ∧
        total + ctxLen took ≤ limit ∧
        ((rest = [] ∧ (buildContextGo limit rs total parts used).1 =
            parts ++ took.map (fun r => sourceLine r.content)) ∨
         (∃ r rest2, rest = r :: rest2 ∧
            limit < total + ctxLen took + r.content.length ∧
            ((100 < limit - (total + ctxLen took) ∧
              (buildContextGo limit rs total parts used).1 =
                parts ++ took.map (fun r => sourceLine r.content) ++
                  [sourceLine (partialExcerpt r.content (limit - (total + ctxLen took))) ++
                    "..."]) ∨
             (limit - (total + ctxLen took) ≤ 100 ∧
              (buildContextGo limit rs total parts used).1 =
                parts ++ took.map (fun r => sourceLine r.content))))) := by
  induction rs with
  | nil =>
    intro total parts used htot
    refine ⟨[], [], by simp, by simp [buildContextGo], by simpa [ctxLen], ?_⟩
    exact Or.inl ⟨rfl, by simp [buildContextGo]⟩
  | cons r rest ih =>
    intro total parts used htot
    by_cases hover : limit < total + r.content.length
    · by_cases hroom : 100 < limit - total
      · refine ⟨[], r :: rest, by simp, ?_, by simpa [ctxLen], ?_⟩
        · simp [buildContextGo, hover, hroom]
        · refine Or.inr ⟨r, rest, rfl, by simpa [ctxLen] using hover, Or.inl ⟨?_, ?_⟩⟩
          · simpa [ctxLen] using hroom
          · simp [buildContextGo, hover, hroom, ctxLen]
      · refine ⟨[], r :: rest, by simp, ?_, by simpa [ctxLen], ?_⟩
        · simp [buildContextGo, hover, hroom]
        · refine Or.inr ⟨r, rest, rfl, by simpa [ctxLen] using hover, Or.inr ⟨?_, ?_⟩⟩
          · simp only [ctxLen, List.map_nil, List.sum_nil, Nat.add_zero]
            omega
          · simp [buildContextGo, hover, hroom, ctxLen]
    · have hstep : buildContextGo limit (r :: rest) total parts used =
          buildContextGo limit rest (total + r.content.length)
            (parts ++ [sourceLine r.content]) (used ++ [r]) := by
        simp [buildContextGo, hover]
      have htot2 : total + r.content.length ≤ limit := by omega
      obtain ⟨took, rest2, heq, h2, hlen, hparts⟩ :=
        ih (total + r.content.length) (parts ++ [sourceLine r.content]) (used ++ [r]) htot2
      refine ⟨r :: took, rest2, by simp [heq], ?_, ?_, ?_⟩
      · rw [hstep, h2]
        simp
      · rw [ctxLen_cons]
        omega
      · rcases hparts with ⟨hre, hp⟩ | ⟨q, rest3, hre, hcond, hsub⟩
        · refine Or.inl ⟨hre, ?_⟩
          rw [hstep, hp]
          simp
        · refine Or.inr ⟨q, rest3, hre, ?_, ?_⟩
          · rw [ctxLen_cons]
            omega
          · rcases hsub with ⟨hc, hp⟩ | ⟨hc, hp⟩
            · refine Or.inl ⟨by rw [ctxLen_cons]; omega, ?_⟩
              rw [hstep, hp]
              have harith : limit - (total + r.content.length + ctxLen took) =
                  limit - (total + ctxLen (r :: took)) := by
                rw [ctxLen_cons]
                omega
              rw [harith]
              simp
            · refine Or.inr ⟨by rw [ctxLen_cons]; omega, ?_⟩
              rw [hstep, hp]
              simp

/-- C1 (amended): the context of `answer_question` is built greedily —
the used sources are exactly a maximal prefix of the retrieved results
whose total content length fits `context_limit`, each contributing one
`"Source: {content}"` part; when a further chunk overflows and more than
100 characters of budget remain, its word-boundary-truncated excerpt
(suffixed `"..."`) is appended to the context WITHOUT being recorded as
a used source (the `used_sources` list receives only fully included
chunks), and otherwise accumulation stops without that chunk. -/
theorem answer_question_context_spec (searchResults : List SearchResult)
    (contextLimit : Nat) :
    ∃ rest,
      searchResults = (buildContext searchResults contextLimit).2 ++ rest ∧
      ctxLen (buildContext searchResults contextLimit).2 ≤ contextLimit ∧
      ((rest = [] ∧ (buildContext searchResults contextLimit).1 =
          (buildContext searchResults contextLimit).2.map (fun r => sourceLine r.content)) ∨
       (∃ r rest2, rest = r :: rest2 ∧
          contextLimit <
            ctxLen (buildContext searchResults contextLimit).2 + r.content.length ∧
          ((100 < contextLimit - ctxLen (buildContext searchResults contextLimit).2 ∧
            (buildContext searchResults contextLimit).1 =
              (buildContext searchResults contextLimit).2.map
                (fun r => sourceLine r.content) ++
                [sourceLine (partialExcerpt r.content
                  (contextLimit - ctxLen (buildContext searchResults contextLimit).2)) ++
                  "..."]) ∨
           (contextLimit - ctxLen (buildContext searchResults contextLimit).2 ≤ 100 ∧
            (buildContext searchResults contextLimit).1 =
              (buildContext searchResults contextLimit).2.map
                (fun r => sourceLine r.content))))) := by
  obtain ⟨took, rest, heq, h2, hlen, hparts⟩ :=
    buildContextGo_spec contextLimit searchResults 0 [] [] (Nat.zero_le _)
  have ht : (buildContext searchResults contextLimit).2 = took := by
    simpa [buildContext] using h2
  refine ⟨rest, ?_, ?_, ?_⟩
  · rw [ht]
    exact heq
  · rw [ht]
    omega
  · rw [ht]
    rcases hparts with ⟨hre, hp⟩ | ⟨q, rest3, hre, hcond, hsub⟩
    · exact Or.inl ⟨hre, by simpa [buildContext] using hp⟩
    · refine Or.inr ⟨q, rest3, hre, by omega, ?_⟩
      rcases hsub with ⟨hc, hp⟩ | ⟨hc, hp⟩
      · exact Or.inl ⟨by omega, by simpa [buildContext] using hp⟩
      · exact Or.inr ⟨by omega, by simpa [buildContext] using hp⟩

set_option maxRecDepth 40000 in
/-- Counterexample to C1 as stated: with a 120-character budget, a
10-character chunk followed by a 150-character chunk produces a context
holding TWO parts (the full first chunk and the truncated excerpt of the
second, since 110 > 100 characters of budget remain) while the recorded
used sources hold only the first chunk — the partially included chunk is
not recorded as a used source. -/
theorem context_used_sources_claim_counterexample :
    (buildContext [crA, crB] 120).1.length = 2 ∧
    (buildContext [crA, crB] 120).2 = [crA] := by
  decide

/-- C6: the confidence reported by `answer_question` is `0.0` when no
sources were used, and otherwise
`min(1.0, top_score * 0.7 + min(used_count / 3.0, 1.0) * 0.3)` where
`top_score` — the first used source's score — is in fact the score of the
highest-scoring used source, because `search_similar` hands
`answer_question` its results sorted by score descending and the used
sources are a prefix of them. -/
theorem answer_confidence_spec (searchResults : List SearchResult) (contextLimit : Nat)
    (hsorted : searchResults.Pairwise (fun a b => b.score ≤ a.score)) :
    ((buildContext searchResults contextLimit).2 = [] →
       answerConfidence searchResults contextLimit = 0) ∧
    (∀ s0 rest, (buildContext searchResults contextLimit).2 = s0 :: rest →
       (∀ s ∈ s0 :: rest, s.score ≤ s0.score) ∧
       answerConfidence searchResults contextLimit =
         pyMin (s0.score * (7/10) + pyMin (((s0 :: rest).length : ℚ) / 3) 1 * (3/10)) 1) := by
  constructor
  · intro h
    simp [answerConfidence, h]
  · intro s0 rest h
    constructor
    · obtain ⟨took, rest2, heq, h2, _, _⟩ :=
        buildContextGo_spec contextLimit searchResults 0 [] [] (Nat.zero_le _)
      have ht : (buildContext searchResults contextLimit).2 = took := by
        simpa [buildContext] using h2
      have hused : List.Sublist (s0 :: rest) searchResults := by
        rw [heq, ← ht, h]
        exact List.sublist_append_left (s0 :: rest) rest2
      have hpw : (s0 :: rest).Pairwise (fun a b => b.score ≤ a.score) :=
        hsorted.sublist hused
      intro s hs
      rcases List.mem_cons.mp hs with hs0 | hsr
      · rw [hs0]
      · exact (List.pairwise_cons.mp hpw).1 s hsr
    · simp only [answerConfidence, h]
      simp [calcConfidence]

/-- Witness for C6: three used sources with top score 0.9 yield
confidence 0.93, matching the spec's worked example. -/
theorem answer_confidence_spec_witness :
    [cr1, cr2, cr3].Pairwise (fun a b => b.score ≤ a.score) ∧
    answerConfidence [cr1, cr2, cr3] 4000 = 93/100 := by
  refine ⟨by decide, ?_⟩
  have h := (answer_confidence_spec [cr1, cr2, cr3] 4000 (by decide)).2 cr1 [cr2, cr3]
    (by decide)
  rw [h.2]
  decide

/-! ## C5: `search_similar` post-processing -/

theorem searchBody_eq (meta : List (Int × ChunkMeta)) (threshold : ℚ) :
    (fun (acc : List SearchResult) (hit : ℚ × Int) =>
      if hit.2 = -1 then acc
      else
        let similarityScore := 1 / (1 + hit.1)
        if similarityScore < threshold then acc
        else
          match dictLookup meta hit.2 with
          | none => acc
          | some m => acc ++ [resultOfMeta m similarityScore]) =
    (fun acc hit =>
      (hitResult meta threshold hit).elim acc (fun r => acc ++ [r])) := by
  funext acc hit
  unfold hitResult
  simp only [one_div]
  by_cases h1 : hit.2 = -1
  · simp [h1]
  · by_cases h2 : (1 + hit.1)⁻¹ < threshold
    · simp [h1, h2]
    · cases hm : dictLookup meta hit.2 with
      | none => simp [h1, h2, hm]
      | some m => simp [h1, h2, hm]

theorem foldl_optionCollect {α β : Type} (f : α → Option β) (l : List α) (acc : List β) :
    l.foldl (fun acc a => (f a).elim acc (fun b => acc ++ [b])) acc =
      acc ++ l.filterMap f := by
  induction l generalizing acc with
  | nil => simp
  | cons a rest ih =>
    simp only [List.foldl_cons, List.filterMap_cons]
    cases hf : f a with
    | none => simp [hf, ih]
    | some b => simp [hf, ih]

theorem searchSimilarResults_eq (faissHits : List (ℚ × Int))
    (meta : List (Int × ChunkMeta)) (scoreThreshold : Option ℚ) (configThreshold : ℚ) :
    searchSimilarResults faissHits meta scoreThreshold configThreshold =
      (faissHits.filterMap
        (hitResult meta (effectiveThreshold scoreThreshold configThreshold))).mergeSort
        (fun a b => decide (b.score ≤ a.score)) := by
  simp only [searchSimilarResults]
  rw [searchBody_eq, foldl_optionCollect]
  simp

theorem hitResult_score (meta : List (Int × ChunkMeta)) (threshold : ℚ) (hit : ℚ × Int)
    (r : SearchResult) (h : hitResult meta threshold hit = some r) :
    threshold ≤ r.score := by
  unfold hitResult at h
  by_cases h1 : hit.2 = -1
  · simp [h1] at h
  · simp only [h1, if_false] at h
    by_cases h2 : 1 / (1 + hit.1) < threshold
    · rw [if_pos h2] at h
      exact absurd h (by simp)
    · rw [if_neg h2] at h
      cases hm : dictLookup meta hit.2 with
      | none =>
        rw [hm] at h
        exact absurd h (by simp)
      | some m =>
        rw [hm] at h
        have hr := Option.some.inj h
        rw [← hr]
        simp only [resultOfMeta]
        exact le_of_not_lt h2

/-- C5 (amended): `search_similar` converts each raw L2 distance `d`
returned by the index to `score = 1/(1+d)`, skips the sentinel row index
`-1` and rows lacking a `chunk_metadata` entry, excludes every result
whose score is below the effective threshold, and returns the survivors
sorted by score descending — where the effective threshold is the
`score_threshold` parameter when supplied AND nonzero, and otherwise the
configured default (a supplied `0.0` is falsy in Python and falls back
to the default). -/
theorem search_similar_spec (faissHits : List (ℚ × Int)) (meta : List (Int × ChunkMeta))
    (scoreThreshold : Option ℚ) (configThreshold : ℚ) :
    (searchSimilarResults faissHits meta scoreThreshold configThreshold).Pairwise
      (fun a b => b.score ≤ a.score) ∧
    (∀ r, r ∈ searchSimilarResults faissHits meta scoreThreshold configThreshold ↔
       ∃ hit, hit ∈ faissHits ∧
         hitResult meta (effectiveThreshold scoreThreshold configThreshold) hit = some r) ∧
    (∀ r, r ∈ searchSimilarResults faissHits meta scoreThreshold configThreshold →
       effectiveThreshold scoreThreshold configThreshold ≤ r.score) ∧
    (∀ d idx m2, (d, idx) ∈ faissHits → idx ≠ -1 →
       dictLookup meta idx = some m2 →
       effectiveThreshold scoreThreshold configThreshold ≤ 1 / (1 + d) →
       resultOfMeta m2 (1 / (1 + d)) ∈
         searchSimilarResults faissHits meta scoreThreshold configThreshold) := by
  have hmem : ∀ r, r ∈ searchSimilarResults faissHits meta scoreThreshold configThreshold ↔
      ∃ hit, hit ∈ faissHits ∧
        hitResult meta (effectiveThreshold scoreThreshold configThreshold) hit = some r := by
    intro r
    rw [searchSimilarResults_eq, List.mem_mergeSort, List.mem_filterMap]
  refine ⟨?_, hmem, ?_, ?_⟩
  · rw [searchSimilarResults_eq]
    have hs := @List.sorted_mergeSort SearchResult
      (fun a b => decide (b.score ≤ a.score))
      (fun a b c hab hbc => by
        simp only [decide_eq_true_eq] at hab hbc ⊢
        exact le_trans hbc hab)
      (fun a b => by
        simp only [decide_eq_true_eq]
        rcases le_total b.score a.score with h | h <;> simp [h])
      (faissHits.filterMap
        (hitResult meta (effectiveThreshold scoreThreshold configThreshold)))
    exact hs.imp (fun h => of_decide_eq_true h)
  · intro r hr
    obtain ⟨hit, _, hh⟩ := (hmem r).mp hr
    exact hitResult_score _ _ _ _ hh
  · intro d idx m2 hin hidx hlk hth
    refine (hmem _).mpr ⟨(d, idx), hin, ?_⟩
    unfold hitResult
    simp only [hidx, if_false, hlk]
    rw [if_neg (not_lt_of_le hth)]

/-- Witness for C5's amended theorem: the spec's own example — a raw
distance of 0.25 yields score `1/(1+0.25) = 0.8`, which survives the
default 0.8 threshold and is returned. -/
theorem search_similar_spec_witness :
    ((mkRat 1 4, (0 : Int)) ∈ [((mkRat 1 4 : ℚ), (0 : Int))]) ∧
    resultOfMeta cmeta0 (1 / (1 + mkRat 1 4)) ∈
      searchSimilarResults [(mkRat 1 4, 0)] [(0, cmeta0)] none (mkRat 4 5) :=
  ⟨by decide,
   (search_similar_spec [(mkRat 1 4, 0)] [(0, cmeta0)] none (mkRat 4 5)).2.2.2
     (mkRat 1 4) 0 cmeta0 (by decide) (by decide) (by decide) (by decide)⟩

/-- Counterexample to C5 as stated: a supplied `score_threshold` of
`0.0` is NOT used as the threshold — Python `or` treats it as falsy and
falls back to the configured default 0.8, so a result whose score
(`1/(1+0.5) = 2/3`) is NOT below the supplied threshold 0 is
nevertheless excluded. -/
theorem search_threshold_claim_counterexample :
    searchSimilarResults [(mkRat 1 2, 0)] [(0, cmeta0)] (some 0) (mkRat 4 5) = [] ∧
    ¬ ((1 : ℚ) / (1 + mkRat 1 2) < 0) := by
  constructor
  · rw [searchSimilarResults_eq]
    have h : hitResult [((0 : Int), cmeta0)] (effectiveThreshold (some 0) (mkRat 4 5))
        ((mkRat 1 2 : ℚ), (0 : Int)) = none := by decide
    simp [h]
  · decide

/-! ## C8: batch question answering alignment -/

theorem answerLoopGo_eq (answerQ : String → Except String (List Nat)) :
    ∀ (questions : List String) (acc : List (List Nat)),
      answerLoopGo answerQ questions acc =
        acc ++ questions.map (fun q => answerSlot (answerQ q)) := by
  intro questions
  induction questions with
  | nil => intro acc; simp [answerLoopGo]
  | cons q rest ih =>
    intro acc
    rw [answerLoopGo, ih]
    simp

theorem process_and_answer_eq_ok (path ctype : String) (fileSize max_file_size : Nat)
    (processRes : String → Except String ProcessedDoc)
    (addRes : ProcessedDoc → Except String Unit)
    (answerQ : String → Except String (List Nat)) (questions : List String) :
    process_and_answer_questions (.ok (path, ctype, fileSize)) max_file_size processRes
      addRes answerQ questions =
      (if max_file_size < fileSize then
         .error "Failed to process document: File too large"
       else
         match processRes path with
         | .error e => .error ("Failed to process document: " ++ e)
         | .ok doc =>
           match addRes doc with
           | .error e => .error ("Failed to process document: " ++ e)
           | .ok _ => .ok (answerLoopGo answerQ questions [])) := rfl

/-- C8: whenever `process_and_answer_questions` returns (rather than
raising), it returns exactly one answer string per input question,
positionally aligned: the slot of question `i` is the inline error
string if answering it failed, else the UTF-8-sanitized and trimmed
answer, with the fixed fallback sentence substituted when that is
empty.  A failure answering one question never disturbs the other
slots. -/
theorem process_and_answer_alignment
    (downloadRes : Except String (String × String × Nat)) (max_file_size : Nat)
    (processRes : String → Except String ProcessedDoc)
    (addRes : ProcessedDoc → Except String Unit)
    (answerQ : String → Except String (List Nat))
    (questions : List String) (answers : List (List Nat))
    (h : process_and_answer_questions downloadRes max_file_size processRes addRes
      answerQ questions = .ok answers) :
    answers.length = questions.length ∧
    ∀ (i : Nat) (q : String), questions[i]? = some q →
      answers[i]? = some (answerSlot (answerQ q)) := by
  have hans : answers = questions.map (fun q => answerSlot (answerQ q)) := by
    cases downloadRes with
    | error e =>
      unfold process_and_answer_questions at h
      exact absurd h (by simp)
    | ok v =>
      obtain ⟨path, ctype, fileSize⟩ := v
      rw [process_and_answer_eq_ok] at h
      by_cases hsz : max_file_size < fileSize
      · rw [if_pos hsz] at h
        exact absurd h (by simp)
      · rw [if_neg hsz] at h
        cases hp : processRes path with
        | error e =>
          rw [hp] at h
          simp at h
        | ok doc =>
          rw [hp] at h
          simp only [] at h
          cases ha : addRes doc with
          | error e =>
            rw [ha] at h
            simp at h
          | ok u =>
            rw [ha] at h
            simp only [] at h
            have := Except.ok.inj h
            rw [← this, answerLoopGo_eq]
            simp
  constructor
  · rw [hans]
    simp
  · intro i q hq
    rw [hans, List.getElem?_map, hq]
    rfl

/-- Witness for C8: a two-question batch where the first answer needs
trimming and the second raises — the returned list holds the sanitized
answer and the inline error string, in order. -/
theorem process_and_answer_alignment_witness :
    process_and_answer_questions (.ok ("p", "t", 5)) 10 (fun _ => .ok doc0)
      (fun _ => .ok ()) (fun q => if q = "q1" then .ok (strCodes " hi ") else .error "boom")
      ["q1", "q2"] =
      .ok [strCodes "hi", strCodes "Error processing question: " ++ strCodes "boom"] ∧
    [strCodes "hi", strCodes "Error processing question: " ++ strCodes "boom"].length =
      ["q1", "q2"].length :=
  ⟨by rfl,
   (process_and_answer_alignment (.ok ("p", "t", 5)) 10 (fun _ => .ok doc0)
     (fun _ => .ok ()) (fun q => if q = "q1" then .ok (strCodes " hi ") else .error "boom")
     ["q1", "q2"] [strCodes "hi", strCodes "Error processing question: " ++ strCodes "boom"]
     (by rfl)).1⟩

/-! ## C10: sliding-window rate limiter -/

theorem rateLimitCall_eq (hist : List (String × List ℚ)) (max_requests : Nat)
    (window now : ℚ) (user : Option String) :
    rateLimitCall hist max_requests window now user =
      (if max_requests ≤ (recentRequests ((dictLookup (pruneHistory hist window now)
          (rateIdentifier user)).getD []) window now).length then
        (pruneHistory hist window now, false)
      else
        (dictInsert (pruneHistory hist window now) (rateIdentifier user)
          (recentRequests ((dictLookup (pruneHistory hist window now)
            (rateIdentifier user)).getD []) window now ++ [now]), true)) := rfl

theorem dictLookup_pruneHistory (hist : List (String × List ℚ)) (window now : ℚ)
    (k : String) (hnd : (hist.map Prod.fst).Nodup) :
    dictLookup (pruneHistory hist window now) k =
      match dictLookup hist k with
      | none => none
      | some l => if l.any (fun ts => decide (now - window < ts)) then some l else none := by
  induction hist with
  | nil => simp [pruneHistory, dictLookup]
  | cons p rest ih =>
    have hnd0 : p.1 ∉ rest.map Prod.fst ∧ (rest.map Prod.fst).Nodup := by
      simpa [List.nodup_cons] using hnd
    have ih2 := ih hnd0.2
    by_cases hP : p.2.any (fun ts => decide (now - window < ts)) = true
    · have hkeep : pruneHistory (p :: rest) window now =
          p :: pruneHistory rest window now := by
        simp [pruneHistory, List.filter_cons, hP]
      rw [hkeep]
      by_cases hk : p.1 = k
      · simp [dictLookup, hk, hP]
      · simp only [dictLookup, hk, if_false]
        rw [ih2]
    · have hdrop : pruneHistory (p :: rest) window now =
          pruneHistory rest window now := by
        simp [pruneHistory, List.filter_cons, hP]
      rw [hdrop, ih2]
      by_cases hk : p.1 = k
      · have hknotin : k ∉ rest.map Prod.fst := hk ▸ hnd0.1
        have hrest : dictLookup rest k = none := dictLookup_eq_none rest k hknotin
        rw [hrest]
        simp [dictLookup, hk, hP]
      · simp [dictLookup, hk]

theorem recent_after_prune (hist : List (String × List ℚ)) (window now t : ℚ)
    (ident : String) (hnd : (hist.map Prod.fst).Nodup) (hle : now ≤ t) :
    recentRequests ((dictLookup (pruneHistory (pruneHistory hist window now) window t)
        ident).getD []) window t =
      recentRequests ((dictLookup (pruneHistory hist window t) ident).getD []) window t := by
  have hndp : ((pruneHistory hist window now).map Prod.fst).Nodup := by
    unfold pruneHistory
    exact hnd.sublist (List.Sublist.map _ (List.filter_sublist hist))
  rw [dictLookup_pruneHistory (pruneHistory hist window now) window t ident hndp,
      dictLookup_pruneHistory hist window now ident hnd,
      dictLookup_pruneHistory hist window t ident hnd]
  cases hl : dictLookup hist ident with
  | none => simp
  | some l =>
    by_cases cnow : l.any (fun ts => decide (now - window < ts)) = true
    · simp [cnow]
    · simp only [cnow, if_false]
      by_cases ct : l.any (fun ts => decide (t - window < ts)) = true
      · simp only [ct, if_true]
        have hcontra : ∀ ts ∈ l, ts ≤ now - window := by
          intro ts hts
          by_contra hgt
          exact cnow (List.any_eq_true.mpr ⟨ts, hts, by simp; linarith⟩)
        have hfil : l.filter (fun ts => decide (t - window < ts)) = [] := by
          rw [List.filter_eq_nil_iff]
          intro ts hts
          simp only [decide_eq_true_eq, not_lt]
          calc ts ≤ now - window := hcontra ts hts
            _ ≤ t - window := by linarith
        simp [recentRequests, hfil]
      · simp [ct, recentRequests]

/-- C10: when the sliding-window rate limiter rejects a request (the
identity already has `max_requests` in-window timestamps), the rejection
happens before the timestamp append — the identity's recorded history is
left exactly as it was (the prune step only drops identities with no
in-window timestamp at all, which a rejected identity is not) — and the
limiter's future decisions are exactly what they would have been without
the rejected request; a request made at a time when fewer than
`max_requests` recorded timestamps remain inside the window is allowed
and recorded. -/
theorem rate_limit_call_spec (hist : List (String × List ℚ)) (max_requests : Nat)
    (window now : ℚ) (user : Option String)
    (hnd : (hist.map Prod.fst).Nodup) (hmax : 1 ≤ max_requests) :
    (max_requests ≤ (recentRequests ((dictLookup (pruneHistory hist window now)
        (rateIdentifier user)).getD []) window now).length →
      (rateLimitCall hist max_requests window now user).2 = false ∧
      dictLookup (rateLimitCall hist max_requests window now user).1 (rateIdentifier user) =
        dictLookup hist (rateIdentifier user) ∧
      (∀ t, now ≤ t →
        (rateLimitCall (rateLimitCall hist max_requests window now user).1
            max_requests window t user).2 =
          (rateLimitCall hist max_requests window t user).2)) ∧
    ((recentRequests ((dictLookup (pruneHistory hist window now)
        (rateIdentifier user)).getD []) window now).length < max_requests →
      (rateLimitCall hist max_requests window now user).2 = true ∧
      dictLookup (rateLimitCall hist max_requests window now user).1 (rateIdentifier user) =
        some (recentRequests ((dictLookup (pruneHistory hist window now)
          (rateIdentifier user)).getD []) window now ++ [now])) := by
  constructor
  · intro hrej
    refine ⟨?_, ?_, ?_⟩
    · rw [rateLimitCall_eq, if_pos hrej]
    · rw [rateLimitCall_eq, if_pos hrej]
      rw [dictLookup_pruneHistory hist window now (rateIdentifier user) hnd]
      cases hl : dictLookup hist (rateIdentifier user) with
      | none => rfl
      | some l =>
        by_cases c : l.any (fun ts => decide (now - window < ts)) = true
        · simp [c]
        · exfalso
          have hcl : dictLookup (pruneHistory hist window now) (rateIdentifier user) =
              none := by
            rw [dictLookup_pruneHistory hist window now (rateIdentifier user) hnd, hl]
            simp [c]
          rw [hcl] at hrej
          simp [recentRequests] at hrej
          omega
    · intro t ht
      have h1 : (rateLimitCall hist max_requests window now user).1 =
          pruneHistory hist window now := by
        rw [rateLimitCall_eq, if_pos hrej]
      rw [h1]
      rw [rateLimitCall_eq (pruneHistory hist window now) max_requests window t user,
          rateLimitCall_eq hist max_requests window t user,
          recent_after_prune hist window now t (rateIdentifier user) hnd ht]
      by_cases c : max_requests ≤ (recentRequests ((dictLookup (pruneHistory hist window t)
          (rateIdentifier user)).getD []) window t).length
      · rw [if_pos c, if_pos c]
      · rw [if_neg c, if_neg c]
  · intro hallow
    constructor
    · rw [rateLimitCall_eq, if_neg (not_le.mpr hallow)]
    · rw [rateLimitCall_eq, if_neg (not_le.mpr hallow)]
      exact dictLookup_dictInsert_self _ _ _

/-- Witness for C10: an identity with two in-window timestamps against a
limit of 2 is rejected, and its recorded history is untouched. -/
theorem rate_limit_call_spec_witness :
    (2 ≤ (recentRequests ((dictLookup (pruneHistory [("u", [(1 : ℚ), 2])] 10 3)
        (rateIdentifier (some "u"))).getD []) 10 3).length) ∧
    (rateLimitCall [("u", [(1 : ℚ), 2])] 2 10 3 (some "u")).2 = false ∧
    dictLookup (rateLimitCall [("u", [(1 : ℚ), 2])] 2 10 3 (some "u")).1
        (rateIdentifier (some "u")) =
      dictLookup [("u", [(1 : ℚ), 2])] (rateIdentifier (some "u")) :=
  ⟨by decide,
   ((rate_limit_call_spec [("u", [(1 : ℚ), 2])] 2 10 3 (some "u")
       (by decide) (by decide)).1 (by decide)).1,
   ((rate_limit_call_spec [("u", [(1 : ℚ), 2])] 2 10 3 (some "u")
       (by decide) (by decide)).1 (by decide)).2.1⟩

/-! ## C4 / C7: vector-store bookkeeping -/

theorem batchIndicesGo_stop (ntotal n b i : Nat) (h : ¬(i < n ∧ 0 < b)) :
    ∀ fuel acc, batchIndicesGo ntotal n b fuel i acc = acc := by
  intro fuel acc
  cases fuel <;> simp [batchIndicesGo, h]

theorem batchIndicesGo_eq (ntotal n b : Nat) (hb : 0 < b) :
    ∀ fuel i acc, acc.length = i → n - i ≤ fuel →
      batchIndicesGo ntotal n b fuel i acc =
        acc ++ (List.range (n - i)).map (fun j => ((ntotal + i + j : Nat) : Int)) := by
  intro fuel
  induction fuel with
  | zero =>
    intro i acc hlen hfuel
    have : n - i = 0 := by omega
    rw [this]
    simp [batchIndicesGo]
  | succ fuel ih =>
    intro i acc hlen hfuel
    by_cases hin : i < n
    · rw [show batchIndicesGo ntotal n b (fuel + 1) i acc =
          batchIndicesGo ntotal n b fuel (i + b)
            (acc ++ (List.range (min b (n - i))).map
              (fun j => ((ntotal + acc.length + j : Nat) : Int))) by
        simp [batchIndicesGo, hin, hb]]
      by_cases hble : b ≤ n - i
      · have hmin : min b (n - i) = b := by omega
        rw [hmin, hlen]
        have hlen2 : (acc ++ (List.range b).map
            (fun j => ((ntotal + i + j : Nat) : Int))).length = i + b := by
          simp [hlen]
        rw [ih (i + b) _ hlen2 (by omega)]
        rw [List.append_assoc]
        congr 1
        rw [show n - i = b + (n - i - b) by omega, List.range_add, List.map_append]
        congr 1
        rw [List.map_map, show n - (i + b) = n - i - b by omega]
        apply List.map_congr_left
        intro j hj
        simp only [Function.comp]
        congr 1
        omega
      · have hmin : min b (n - i) = n - i := by omega
        rw [hmin, hlen]
        rw [batchIndicesGo_stop ntotal n b (i + b) (by omega)]
    · have : n - i = 0 := by omega
      rw [this]
      simp [batchIndicesGo, hin]

/-- With a positive batch size, the batching loop of `add_document`
assigns exactly the consecutive fresh row indices
`[ntotal, ntotal + n)`. -/
theorem batchIndices_eq (ntotal n b : Nat) (hb : 0 < b) :
    batchIndices ntotal n b =
      (List.range n).map (fun j => ((ntotal + j : Nat) : Int)) := by
  unfold batchIndices
  rw [batchIndicesGo_eq ntotal n b hb n 0 [] rfl (by omega)]
  simp

theorem foldl_dictInsert_lookup_not_mem {α κ ν : Type} [DecidableEq κ]
    (key : α → κ) (val : α → ν) (L : List α) (m : List (κ × ν)) (k : κ)
    (h : k ∉ L.map key) :
    dictLookup (L.foldl (fun m a => dictInsert m (key a) (val a)) m) k =
      dictLookup m k := by
  induction L generalizing m with
  | nil => simp
  | cons a rest ih =>
    simp only [List.map_cons, List.mem_cons] at h
    push_neg at h
    rw [List.foldl_cons, ih _ h.2, dictLookup_dictInsert_ne _ _ _ _ h.1]

theorem foldl_dictInsert_lookup_isSome {α κ ν : Type} [DecidableEq κ]
    (key : α → κ) (val : α → ν) (L : List α) (m : List (κ × ν)) (k : κ)
    (h : k ∈ L.map key) :
    (dictLookup (L.foldl (fun m a => dictInsert m (key a) (val a)) m) k).isSome := by
  induction L generalizing m with
  | nil => simp at h
  | cons a rest ih =>
    rw [List.foldl_cons]
    by_cases hr : k ∈ rest.map key
    · exact ih _ hr
    · have hk : k = key a := by
        simp only [List.map_cons, List.mem_cons] at h
        tauto
      rw [foldl_dictInsert_lookup_not_mem key val rest _ k hr, hk,
        dictLookup_dictInsert_self]
      rfl

theorem dictInsert_keys_subset {κ ν : Type} [DecidableEq κ] (m : List (κ × ν))
    (k2 k : κ) (v : ν) (h : k2 ∈ (dictInsert m k v).map Prod.fst) :
    k2 = k ∨ k2 ∈ m.map Prod.fst := by
  simp only [List.mem_map] at h
  obtain ⟨p, hp, hpk⟩ := h
  rcases dictInsert_key_mem m k v p hp with h1 | h2
  · left
    rw [← hpk, h1]
  · right
    rw [← hpk]
    exact h2

theorem foldl_dictInsert_keys_subset {α κ ν : Type} [DecidableEq κ]
    (key : α → κ) (val : α → ν) (L : List α) (m : List (κ × ν)) (k : κ)
    (h : k ∈ (L.foldl (fun m a => dictInsert m (key a) (val a)) m).map Prod.fst) :
    k ∈ m.map Prod.fst ∨ k ∈ L.map key := by
  induction L generalizing m with
  | nil => exact Or.inl h
  | cons a rest ih =>
    rw [List.foldl_cons] at h
    rcases ih _ h with h1 | h2
    · rcases dictInsert_keys_subset m k (key a) (val a) h1 with h3 | h4
      · right
        simp [h3]
      · exact Or.inl h4
    · right
      simp [h2]

theorem foldl_dictInsert_keys_nodup {α κ ν : Type} [DecidableEq κ]
    (key : α → κ) (val : α → ν) (L : List α) (m : List (κ × ν))
    (h : (m.map Prod.fst).Nodup) :
    ((L.foldl (fun m a => dictInsert m (key a) (val a)) m).map Prod.fst).Nodup := by
  induction L generalizing m with
  | nil => exact h
  | cons a rest ih =>
    rw [List.foldl_cons]
    exact ih _ (dictInsert_keys_nodup m (key a) (val a) h)

theorem dictLookup_filter_not_contains {ν : Type} (m : List (Int × ν)) (R : List Int)
    (k : Int) (h : k ∉ R) :
    dictLookup (m.filter (fun p => !(R.contains p.1))) k = dictLookup m k := by
  induction m with
  | nil => simp [dictLookup]
  | cons p rest ih =>
    by_cases hc : p.1 ∈ R
    · have hdrop : (p :: rest).filter (fun p => !(R.contains p.1)) =
          rest.filter (fun p => !(R.contains p.1)) := by
        simp [List.filter_cons, hc]
      have hne : ¬ p.1 = k := by
        intro he
        exact h (he ▸ hc)
      rw [hdrop, ih]
      simp [dictLookup, hne]
    · have hkeep : (p :: rest).filter (fun p => !(R.contains p.1)) =
          p :: rest.filter (fun p => !(R.contains p.1)) := by
        simp [List.filter_cons, hc]
      rw [hkeep]
      by_cases hk : p.1 = k
      · simp [dictLookup, hk]
      · simp only [dictLookup, hk, if_false]
        exact ih

theorem dictLookup_filter_mem_removed {ν : Type} (m : List (Int × ν)) (R : List Int)
    (k : Int) (h : k ∈ R) :
    dictLookup (m.filter (fun p => !(R.contains p.1))) k = none := by
  apply dictLookup_eq_none
  intro hmem
  simp only [List.mem_map] at hmem
  obtain ⟨p, hp, hpk⟩ := hmem
  have := (List.mem_filter.mp hp).2
  rw [hpk] at this
  simp at this
  exact this h

theorem dictLookup_filter_key_self {κ ν : Type} [DecidableEq κ] (m : List (κ × ν))
    (k : κ) :
    dictLookup (m.filter (fun p => !(decide (p.1 = k)))) k = none := by
  apply dictLookup_eq_none
  intro hmem
  simp only [List.mem_map] at hmem
  obtain ⟨p, hp, hpk⟩ := hmem
  have := (List.mem_filter.mp hp).2
  rw [hpk] at this
  simp at this

theorem deleteDocument_eq_none (st : RagState) (document_id : String)
    (h : dictLookup st.document_chunks document_id = none) :
    deleteDocument st document_id = (st, false) := by
  unfold deleteDocument
  rw [h]

theorem deleteDocument_eq_some (st : RagState) (document_id : String) (rows : List Int)
    (h : dictLookup st.document_chunks document_id = some rows) :
    deleteDocument st document_id =
      ({ ntotal := st.ntotal,
         chunk_metadata := st.chunk_metadata.filter (fun p => !(rows.contains p.1)),
         document_chunks :=
           st.document_chunks.filter (fun p => !(decide (p.1 = document_id))) },
       true) := by
  unfold deleteDocument
  rw [h]

theorem addDocument_ok_inv (st : RagState) (doc : ProcessedDoc) (b : Nat) (now : ℚ)
    (st2 : RagState) (d2 : String) (h : addDocument st doc b now = .ok (st2, d2)) :
    doc.chunks.isEmpty = false ∧ ¬ b = 0 := by
  unfold addDocument at h
  by_cases h1 : doc.chunks.isEmpty = true
  · rw [if_pos h1] at h
    exact absurd h (by simp)
  · by_cases h2 : b = 0
    · rw [if_neg h1, if_pos h2] at h
      exact absurd h (by simp)
    · exact ⟨by simpa using h1, h2⟩

theorem addDocument_eq (st : RagState) (doc : ProcessedDoc) (b : Nat) (now : ℚ)
    (h1 : doc.chunks.isEmpty = false) (h2 : ¬ b = 0) :
    addDocument st doc b now =
      .ok ({ ntotal := st.ntotal + doc.chunks.length,
             chunk_metadata := (doc.chunks.zip
               (batchIndices st.ntotal doc.chunks.length b)).foldl
               (fun m p => dictInsert m p.2
                 { chunk_id := p.1.id
                   document_id := doc.id
                   content := p.1.content
                   start_index := p.1.start_index
                   end_index := p.1.end_index
                   added_timestamp := now }) st.chunk_metadata,
             document_chunks := dictInsert st.document_chunks doc.id
               (batchIndices st.ntotal doc.chunks.length b) },
           doc.id) := by
  unfold addDocument
  rw [if_neg (by simp [h1]), if_neg h2]

theorem rows_mem_bounds (ntotal n : Nat) (r : Int)
    (h : r ∈ (List.range n).map (fun j => ((ntotal + j : Nat) : Int))) :
    (ntotal : Int) ≤ r ∧ r < ((ntotal + n : Nat) : Int) := by
  simp only [List.mem_map, List.mem_range] at h
  obtain ⟨j, hj, hr⟩ := h
  constructor
  · rw [← hr]
    exact_mod_cast Nat.le_add_right ntotal j
  · rw [← hr]
    exact_mod_cast by omega

theorem addDocument_ok_spec (st : RagState) (doc : ProcessedDoc) (b : Nat) (now : ℚ)
    (st2 : RagState) (d2 : String) (hb : 0 < b)
    (h : addDocument st doc b now = .ok (st2, d2)) :
    d2 = doc.id ∧
    st2.ntotal = st.ntotal + doc.chunks.length ∧
    st2.document_chunks = dictInsert st.document_chunks doc.id
      ((List.range doc.chunks.length).map (fun j => ((st.ntotal + j : Nat) : Int))) ∧
    st2.chunk_metadata = (doc.chunks.zip
      ((List.range doc.chunks.length).map (fun j => ((st.ntotal + j : Nat) : Int)))).foldl
      (fun m p => dictInsert m p.2
        { chunk_id := p.1.id
          document_id := doc.id
          content := p.1.content
          start_index := p.1.start_index
          end_index := p.1.end_index
          added_timestamp := now }) st.chunk_metadata := by
  obtain ⟨hne, hb0⟩ := addDocument_ok_inv st doc b now st2 d2 h
  rw [addDocument_eq st doc b now hne hb0,
    batchIndices_eq st.ntotal doc.chunks.length b hb] at h
  have hpair := Except.ok.inj h
  injection hpair with hst hd
  refine ⟨hd.symm, ?_, ?_, ?_⟩ <;> rw [← hst]

theorem zip_snd_rows (chunks : List Chunk) (rows : List Int)
    (hlen : rows.length = chunks.length) :
    (chunks.zip rows).map Prod.snd = rows := by
  apply List.map_snd_zip
  omega

theorem wf_addDocument (st : RagState) (doc : ProcessedDoc) (b : Nat) (now : ℚ)
    (st2 : RagState) (d2 : String) (hwf : WellFormed st)
    (h : addDocument st doc b now = .ok (st2, d2)) : WellFormed st2 := by
  obtain ⟨hne, hb0⟩ := addDocument_ok_inv st doc b now st2 d2 h
  have hb : 0 < b := Nat.pos_of_ne_zero hb0
  obtain ⟨hd, hnt, hdocs, hmeta⟩ := addDocument_ok_spec st doc b now st2 d2 hb h
  obtain ⟨wf1, wf2, wf3, wf4, wf5⟩ := hwf
  have hrlen : ((List.range doc.chunks.length).map
      (fun j => ((st.ntotal + j : Nat) : Int))).length = doc.chunks.length := by simp
  have hkeys : (doc.chunks.zip ((List.range doc.chunks.length).map
      (fun j => ((st.ntotal + j : Nat) : Int)))).map
      (fun p => (p : Chunk × Int).2) =
      (List.range doc.chunks.length).map (fun j => ((st.ntotal + j : Nat) : Int)) :=
    zip_snd_rows _ _ hrlen
  have hcast : (st.ntotal : Int) ≤ ((st.ntotal + doc.chunks.length : Nat) : Int) := by
    exact_mod_cast Nat.le_add_right st.ntotal doc.chunks.length
  refine ⟨?_, ?_, ?_, ?_, ?_⟩
  · rw [hmeta]
    exact foldl_dictInsert_keys_nodup _ _ _ _ wf1
  · rw [hdocs]
    exact dictInsert_keys_nodup _ _ _ wf2
  · intro p hp
    rw [hmeta] at hp
    rw [hnt]
    rcases foldl_dictInsert_keys_subset _ _ _ _ _ (List.mem_map_of_mem Prod.fst hp)
      with h1 | h2
    · simp only [List.mem_map] at h1
      obtain ⟨q, hq, hqe⟩ := h1
      rw [← hqe]
      exact lt_of_lt_of_le (wf3 q hq) hcast
    · rw [hkeys] at h2
      exact (rows_mem_bounds st.ntotal doc.chunks.length p.1 h2).2
  · intro d rows0 hlk r hr
    rw [hdocs] at hlk
    rw [hnt, hmeta]
    by_cases hdid : d = doc.id
    · subst hdid
      rw [dictLookup_dictInsert_self] at hlk
      have hrw : rows0 = (List.range doc.chunks.length).map
          (fun j => ((st.ntotal + j : Nat) : Int)) := (Option.some.inj hlk).symm
      rw [hrw] at hr
      constructor
      · apply foldl_dictInsert_lookup_isSome
        rw [hkeys]
        exact hr
      · exact (rows_mem_bounds st.ntotal doc.chunks.length r hr).2
    · rw [dictLookup_dictInsert_ne _ _ _ _ hdid] at hlk
      have hold := wf4 d rows0 hlk r hr
      constructor
      · rw [foldl_dictInsert_lookup_not_mem]
        · exact hold.1
        · rw [hkeys]
          intro hmem
          have := (rows_mem_bounds st.ntotal doc.chunks.length r hmem).1
          omega
      · exact lt_of_lt_of_le hold.2 hcast
  · intro d1 d2x rows1 rows2 hne12 hl1 hl2 r hr1 hr2
    rw [hdocs] at hl1 hl2
    by_cases h1 : d1 = doc.id
    · subst h1
      rw [dictLookup_dictInsert_self] at hl1
      have h2x : ¬ d2x = doc.id := fun he => hne12 (he ▸ rfl)
      rw [dictLookup_dictInsert_ne _ _ _ _ h2x] at hl2
      have hrw : rows1 = (List.range doc.chunks.length).map
          (fun j => ((st.ntotal + j : Nat) : Int)) := (Option.some.inj hl1).symm
      rw [hrw] at hr1
      have hge := (rows_mem_bounds st.ntotal doc.chunks.length r hr1).1
      have hlt := (wf4 d2x rows2 hl2 r hr2).2
      omega
    · rw [dictLookup_dictInsert_ne _ _ _ _ h1] at hl1
      by_cases h2 : d2x = doc.id
      · subst h2
        rw [dictLookup_dictInsert_self] at hl2
        have hrw : rows2 = (List.range doc.chunks.length).map
            (fun j => ((st.ntotal + j : Nat) : Int)) := (Option.some.inj hl2).symm
        rw [hrw] at hr2
        have hge := (rows_mem_bounds st.ntotal doc.chunks.length r hr2).1
        have hlt := (wf4 d1 rows1 hl1 r hr1).2
        omega
      · rw [dictLookup_dictInsert_ne _ _ _ _ h2] at hl2
        exact wf5 d1 d2x rows1 rows2 hne12 hl1 hl2 r hr1 hr2

theorem wf_deleteDocument (st : RagState) (document_id : String) (hwf : WellFormed st) :
    WellFormed (deleteDocument st document_id).1 := by
  obtain ⟨wf1, wf2, wf3, wf4, wf5⟩ := hwf
  cases hl : dictLookup st.document_chunks document_id with
  | none =>
    rw [deleteDocument_eq_none st document_id hl]
    exact ⟨wf1, wf2, wf3, wf4, wf5⟩
  | some rows =>
    rw [deleteDocument_eq_some st document_id rows hl]
    refine ⟨?_, ?_, ?_, ?_, ?_⟩
    · exact wf1.sublist (List.Sublist.map _ (List.filter_sublist _))
    · exact wf2.sublist (List.Sublist.map _ (List.filter_sublist _))
    · intro p hp
      exact wf3 p (List.mem_of_mem_filter hp)
    · intro d rows0 hlk r hr
      by_cases hdid : d = document_id
      · subst hdid
        rw [dictLookup_filter_key_self] at hlk
        exact absurd hlk (by simp)
      · rw [dictLookup_filter_key_ne st.document_chunks d document_id hdid] at hlk
        have hold := wf4 d rows0 hlk r hr
        refine ⟨?_, hold.2⟩
        have hnotin : r ∉ rows := wf5 d document_id rows0 rows hdid hlk hl r hr
        rw [dictLookup_filter_not_contains st.chunk_metadata rows r hnotin]
        exact hold.1
    · intro d1 d2x rows1 rows2 hne12 hl1 hl2
      by_cases h1 : d1 = document_id
      · subst h1
        rw [dictLookup_filter_key_self] at hl1
        exact absurd hl1 (by simp)
      · by_cases h2 : d2x = document_id
        · subst h2
          rw [dictLookup_filter_key_self] at hl2
          exact absurd hl2 (by simp)
        · rw [dictLookup_filter_key_ne st.document_chunks d1 document_id h1] at hl1
          rw [dictLookup_filter_key_ne st.document_chunks d2x document_id h2] at hl2
          exact wf5 d1 d2x rows1 rows2 hne12 hl1 hl2

theorem wf_emptyState : WellFormed emptyState := by
  refine ⟨by simp [emptyState], by simp [emptyState], ?_, ?_, ?_⟩
  · intro p hp
    simp [emptyState] at hp
  · intro d rows h
    simp [emptyState, dictLookup] at h
  · intro d1 d2 rows1 rows2 h h1 h2
    simp [emptyState, dictLookup] at h1

theorem applyOp_add (st : RagState) (doc : ProcessedDoc) (b : Nat) (now : ℚ) :
    applyOp st (RagOp.add doc b now) =
      match addDocument st doc b now with
      | .ok (st2, _) => st2
      | .error _ => st := rfl

theorem applyOp_del (st : RagState) (document_id : String) :
    applyOp st (RagOp.del document_id) = (deleteDocument st document_id).1 := rfl

theorem wf_applyOp (st : RagState) (op : RagOp) (hwf : WellFormed st) :
    WellFormed (applyOp st op) := by
  cases op with
  | add doc b now =>
    rw [applyOp_add]
    cases h : addDocument st doc b now with
    | error e => exact hwf
    | ok v =>
      obtain ⟨st2, d2⟩ := v
      exact wf_addDocument st doc b now st2 d2 hwf h
  | del document_id =>
    rw [applyOp_del]
    exact wf_deleteDocument st document_id hwf

theorem wf_foldl (ops : List RagOp) :
    ∀ st, WellFormed st → WellFormed (ops.foldl applyOp st) := by
  induction ops with
  | nil => intro st h; exact h
  | cons op rest ih =>
    intro st h
    rw [List.foldl_cons]
    exact ih _ (wf_applyOp st op h)

/-- Every state reachable from the empty index is well-formed. -/
theorem wf_runOps (ops : List RagOp) : WellFormed (runOps ops) :=
  wf_foldl ops emptyState wf_emptyState

/-- C4: every sequence of RAG operations from the empty index preserves
the bookkeeping invariant — each row index referenced by
`document_chunks` has a `chunk_metadata` entry and is strictly below the
index's vector count; a successful `add_document` call assigns exactly
the fresh consecutive row indices `[ntotal_before, ntotal_before + n)`
(each of which receives a metadata entry) and grows `ntotal` by the
chunk count; `delete_document` never shrinks `ntotal`. -/
theorem rag_bookkeeping_spec (ops : List RagOp) :
    rowsBound (runOps ops) ∧
    (∀ (st : RagState) (doc : ProcessedDoc) (b : Nat) (now : ℚ)
       (st2 : RagState) (d2 : String), 0 < b →
       addDocument st doc b now = .ok (st2, d2) →
       st2.ntotal = st.ntotal + doc.chunks.length ∧
       dictLookup st2.document_chunks doc.id =
         some ((List.range doc.chunks.length).map
           (fun j => ((st.ntotal + j : Nat) : Int))) ∧
       (∀ r, r ∈ (List.range doc.chunks.length).map
           (fun j => ((st.ntotal + j : Nat) : Int)) →
          (dictLookup st2.chunk_metadata r).isSome)) ∧
    (∀ (st : RagState) (document_id : String),
       (deleteDocument st document_id).1.ntotal = st.ntotal) := by
  refine ⟨(wf_runOps ops).2.2.2.1, ?_, ?_⟩
  · intro st doc b now st2 d2 hb h
    obtain ⟨hd, hnt, hdocs, hmeta⟩ := addDocument_ok_spec st doc b now st2 d2 hb h
    have hrlen : ((List.range doc.chunks.length).map
        (fun j => ((st.ntotal + j : Nat) : Int))).length = doc.chunks.length := by simp
    have hkeys : (doc.chunks.zip ((List.range doc.chunks.length).map
        (fun j => ((st.ntotal + j : Nat) : Int)))).map
        (fun p => (p : Chunk × Int).2) =
        (List.range doc.chunks.length).map (fun j => ((st.ntotal + j : Nat) : Int)) :=
      zip_snd_rows _ _ hrlen
    refine ⟨hnt, ?_, ?_⟩
    · rw [hdocs, dictLookup_dictInsert_self]
    · intro r hr
      rw [hmeta]
      apply foldl_dictInsert_lookup_isSome
      rw [hkeys]
      exact hr
  · intro st document_id
    cases hl : dictLookup st.document_chunks document_id with
    | none => rw [deleteDocument_eq_none st document_id hl]
    | some rows => rw [deleteDocument_eq_some st document_id rows hl]

/-- Witness for C4: adding a three-chunk document to the empty index
registers exactly rows 0, 1, 2 for it. -/
theorem rag_bookkeeping_spec_witness :
    (0 < 50) ∧
    addDocument emptyState doc0 50 0 =
      .ok (applyOp emptyState (RagOp.add doc0 50 0), "docA") ∧
    dictLookup (applyOp emptyState (RagOp.add doc0 50 0)).document_chunks "docA" =
      some ((List.range doc0.chunks.length).map
        (fun j => ((emptyState.ntotal + j : Nat) : Int))) :=
  ⟨by decide, by rfl,
   ((rag_bookkeeping_spec []).2.1 emptyState doc0 50 0
     (applyOp emptyState (RagOp.add doc0 50 0)) "docA" (by decide) (by rfl)).2.1⟩

/-- C7: `delete_document` on an unknown id returns `false` and leaves
the state untouched; on a known id it returns `true`, removes exactly
that document's rows from `chunk_metadata` and its entry from
`document_chunks`, leaves the vector count and every other document's
entries in both maps unchanged, and a second delete of the same id then
returns `false`. -/
theorem delete_document_spec (ops : List RagOp) (document_id : String) :
    (dictLookup (runOps ops).document_chunks document_id = none →
       deleteDocument (runOps ops) document_id = (runOps ops, false)) ∧
    (∀ rows, dictLookup (runOps ops).document_chunks document_id = some rows →
       (deleteDocument (runOps ops) document_id).2 = true ∧
       (deleteDocument (runOps ops) document_id).1.ntotal = (runOps ops).ntotal ∧
       dictLookup (deleteDocument (runOps ops) document_id).1.document_chunks
         document_id = none ∧
       (∀ r ∈ rows,
          dictLookup (deleteDocument (runOps ops) document_id).1.chunk_metadata r =
            none) ∧
       (∀ d, d ≠ document_id →
          dictLookup (deleteDocument (runOps ops) document_id).1.document_chunks d =
            dictLookup (runOps ops).document_chunks d) ∧
       (∀ d rowsD, d ≠ document_id →
          dictLookup (runOps ops).document_chunks d = some rowsD →
          ∀ r ∈ rowsD,
            dictLookup (deleteDocument (runOps ops) document_id).1.chunk_metadata r =
              dictLookup (runOps ops).chunk_metadata r) ∧
       (deleteDocument (deleteDocument (runOps ops) document_id).1
         document_id).2 = false) := by
  constructor
  · intro h
    exact deleteDocument_eq_none (runOps ops) document_id h
  · intro rows h
    obtain ⟨wf1, wf2, wf3, wf4, wf5⟩ := wf_runOps ops
    rw [deleteDocument_eq_some (runOps ops) document_id rows h]
    refine ⟨rfl, rfl, ?_, ?_, ?_, ?_, ?_⟩
    · exact dictLookup_filter_key_self _ _
    · intro r hr
      exact dictLookup_filter_mem_removed _ rows r hr
    · intro d hd
      exact dictLookup_filter_key_ne _ d document_id hd
    · intro d rowsD hd hlkd r hrD
      have hnotin : r ∉ rows := wf5 d document_id rowsD rows hd hlkd h r hrD
      exact dictLookup_filter_not_contains _ rows r hnotin
    · rw [deleteDocument_eq_none _ document_id (dictLookup_filter_key_self _ _)]

/-- Witness for C7: after adding the three-chunk document, deleting it
succeeds without shrinking the vector count, and deleting it again
returns `false`. -/
theorem delete_document_spec_witness :
    dictLookup (runOps [RagOp.add doc0 50 0]).document_chunks "docA" =
      some [(0 : Int), 1, 2] ∧
    (deleteDocument (runOps [RagOp.add doc0 50 0]) "docA").2 = true ∧
    (deleteDocument (runOps [RagOp.add doc0 50 0]) "docA").1.ntotal =
      (runOps [RagOp.add doc0 50 0]).ntotal ∧
    (deleteDocument (deleteDocument (runOps [RagOp.add doc0 50 0]) "docA").1
      "docA").2 = false :=
  ⟨by decide,
   ((delete_document_spec [RagOp.add doc0 50 0] "docA").2 [(0 : Int), 1, 2]
     (by decide)).1,
   ((delete_document_spec [RagOp.add doc0 50 0] "docA").2 [(0 : Int), 1, 2]
     (by decide)).2.1,
   ((delete_document_spec [RagOp.add doc0 50 0] "docA").2 [(0 : Int), 1, 2]
     (by decide)).2.2.2.2.2.2⟩

end HackRx
